import Mathlib

/-
Verification of the VPL compiler pipeline (Lexer, Parser, RenameVisitor,
GenVisitor, Asm abstract machine of stage Vpl14, and the constraint
generator of stage Vpl9) against its natural-language specification.

The Python sources are shallowly embedded:
  * the AST classes of Expression.py become the inductive type Expr;
  * the instruction classes of Asm.py become the inductive type AInst, and
    the Program object becomes the record AProg; the mutating eval methods
    become pure state transformers in the Except monad (Python exceptions
    such as ZeroDivisionError, IndexError and sys.exit become typed errors);
  * Python dicts become association lists consed at the front (an overwrite
    in the dict and a cons at the front are observationally equal for get);
  * Python while-loops that are not structurally recursive take a fuel
    parameter; exhausting fuel is a distinguished error so that a normal
    halt is never confused with running out of fuel.
-/

/-! ### Decimal rendering of counters

Python renders a counter into a fresh name with an f-string such as
f"tmp{counter}" or f"{base}_{counter}".  The functions below embed the
decimal rendering of a nonnegative integer (most significant digit first),
which is what the f-string produces. -/

/-- digChar d is the decimal digit character for d < 10, as in Python str. -/
def digChar (d : Nat) : Char := Char.ofNat (48 + d)

/-- Decimal digits of n, most significant first.  The first argument is
fuel; any fuel greater or equal to n is enough, and natStr below always
supplies n itself. -/
def natDigitsAux : Nat → Nat → List Char
  | 0, n => [digChar (n % 10)]
  | fuel + 1, n => if n < 10 then [digChar n] else natDigitsAux fuel (n / 10) ++ [digChar (n % 10)]

/-- natStr n is the decimal string for n, i.e. what Python str(n) returns
for a nonnegative n. -/
def natStr (n : Nat) : String := (natDigitsAux n n).asString

/-- decDigits reads a digit string back into a number; used only to prove
that natStr is injective. -/
def decDigits (l : List Char) : Nat := l.foldl (fun a c => 10 * a + (c.toNat - 48)) 0

/-! ### The abstract syntax tree (Expression.py, as used by stage Vpl14)

Each Expression subclass becomes one constructor.  The double-dispatch
accept/visit pattern collapses into ordinary pattern matching. -/

inductive Expr where
  | num (n : Int)
  | bln (b : Bool)
  | var (identifier : String)
  | eql (left right : Expr)
  | and (left right : Expr)
  | or (left right : Expr)
  | add (left right : Expr)
  | sub (left right : Expr)
  | mul (left right : Expr)
  | div (left right : Expr)
  | leq (left right : Expr)
  | lth (left right : Expr)
  | neg (exp : Expr)
  | not (exp : Expr)
  | letE (identifier : String) (expDef expBody : Expr)
  | ite (cond e0 e1 : Expr)
  | fn (formal : String) (body : Expr)
  | app (function actual : Expr)
  deriving DecidableEq, Repr

/-! ### The abstract machine (Asm.py)

Runtime failures of the Python interpreter become the typed error RErr:
sys.exit on an unknown register in get_val, ZeroDivisionError raised by
the floor division in Div.eval, IndexError raised by list indexing in
set_mem/get_mem, the TypeError that follows jumping through a branch
whose label was never patched (lab is still None), and fuel exhaustion of
the eval loop of the embedding. -/

inductive RErr where
  | undefinedRegister (name : String)
  | divByZero
  | memOutOfBounds
  | unpatchedTarget
  | outOfFuel
  deriving DecidableEq, Repr

/-- Each instruction class of Asm.py is one constructor.  Branch labels are
Option Int because Beq and Jal are constructed with lab=None and patched
later by set_target. -/
inductive AInst where
  | add (rd rs1 rs2 : String)
  | addi (rd rs1 : String) (imm : Int)
  | mul (rd rs1 rs2 : String)
  | sub (rd rs1 rs2 : String)
  | xor (rd rs1 rs2 : String)
  | xori (rd rs1 : String) (imm : Int)
  | div (rd rs1 rs2 : String)
  | slt (rd rs1 rs2 : String)
  | slti (rd rs1 : String) (imm : Int)
  | beq (rs1 rs2 : String) (lab : Option Int)
  | jal (rd : String) (lab : Option Int)
  | jalr (rd rs : String) (offset : Int)
  | sw (rs1 : String) (offset : Int) (reg : String)
  | lw (rs1 : String) (offset : Int) (reg : String)
  deriving DecidableEq, Repr

/-- The Program object of Asm.py: memory list, register environment
(a Python dict embedded as a front-consed association list), instruction
list and program counter.  The pc is an Int because branches may set it to
any integer, including negative ones. -/
structure AProg where
  mem : List Int
  env : List (String × Int)
  insts : List AInst
  pc : Int
  deriving DecidableEq, Repr

/-- Lookup in the environment; first binding wins, like a Python dict in
which the most recent write is the visible one. -/
def envGet : List (String × Int) → String → Option Int
  | [], _ => none
  | (k, v) :: rest, name => if k = name then some v else envGet rest name

/-- Program.get_val: returns the register value, or exits on an undefined
register (the sys.exit becomes the typed error). -/
def getVal (p : AProg) (name : String) : Except RErr Int :=
  match envGet p.env name with
  | some v => .ok v
  | none => .error (.undefinedRegister name)

/-- Program.set_val: writes to any register except x0; a write to x0 is
silently discarded and the program is returned unchanged. -/
def setVal (p : AProg) (name : String) (v : Int) : AProg :=
  if name = "x0" then p else { p with env := (name, v) :: p.env }

/-- Program.set_mem is a plain Python list assignment, so it follows
Python indexing: an address in the interval from 0 (inclusive) to the
length (exclusive) writes that cell, an address in the interval from
-length (inclusive) to 0 (exclusive) silently wraps around and writes the
cell at address + length, and anything else raises IndexError. -/
def setMem (p : AProg) (addr v : Int) : Except RErr AProg :=
  let n : Int := p.mem.length
  if 0 ≤ addr ∧ addr < n then .ok { p with mem := p.mem.set addr.toNat v }
  else if -n ≤ addr ∧ addr < 0 then .ok { p with mem := p.mem.set (addr + n).toNat v }
  else .error .memOutOfBounds

/-- Program.get_mem, with the same Python list indexing semantics. -/
def getMem (p : AProg) (addr : Int) : Except RErr Int :=
  let n : Int := p.mem.length
  if 0 ≤ addr ∧ addr < n then .ok (p.mem.getD addr.toNat 0)
  else if -n ≤ addr ∧ addr < 0 then .ok (p.mem.getD (addr + n).toNat 0)
  else .error .memOutOfBounds

/-- The eval method of each instruction class.  When an instruction runs,
the pc stored in the state has already been incremented by the fetch in
get_inst, exactly as in Program.eval, so Jal and Jalr read the return
address simply as the current pc. -/
def instEval (i : AInst) (p : AProg) : Except RErr AProg :=
  match i with
  | .add rd rs1 rs2 => do
      let a ← getVal p rs1
      let b ← getVal p rs2
      return setVal p rd (a + b)
  | .addi rd rs1 imm => do
      let a ← getVal p rs1
      return setVal p rd (a + imm)
  | .mul rd rs1 rs2 => do
      let a ← getVal p rs1
      let b ← getVal p rs2
      return setVal p rd (a * b)
  | .sub rd rs1 rs2 => do
      let a ← getVal p rs1
      let b ← getVal p rs2
      return setVal p rd (a - b)
  | .xor rd rs1 rs2 => do
      let a ← getVal p rs1
      let b ← getVal p rs2
      return setVal p rd (Int.xor a b)
  | .xori rd rs1 imm => do
      let a ← getVal p rs1
      return setVal p rd (Int.xor a imm)
  | .div rd rs1 rs2 => do
      let a ← getVal p rs1
      let b ← getVal p rs2
      if b = 0 then .error .divByZero else return setVal p rd (Int.fdiv a b)
  | .slt rd rs1 rs2 => do
      let a ← getVal p rs1
      let b ← getVal p rs2
      return setVal p rd (if a < b then 1 else 0)
  | .slti rd rs1 imm => do
      let a ← getVal p rs1
      return setVal p rd (if a < imm then 1 else 0)
  | .beq rs1 rs2 lab => do
      let a ← getVal p rs1
      let b ← getVal p rs2
      if a = b then
        match lab with
        | some l => return { p with pc := l }
        | none => .error .unpatchedTarget
      else return p
  | .jal rd lab =>
      let p1 := if rd ≠ "x0" then setVal p rd p.pc else p
      match lab with
      | some l => .ok { p1 with pc := l }
      | none => .error .unpatchedTarget
  | .jalr rd rs offset => do
      let p1 := if rd ≠ "x0" then setVal p rd p.pc else p
      let rv ← getVal p1 rs
      return { p1 with pc := rv + offset }
  | .sw rs1 offset reg => do
      let v ← getVal p reg
      let a ← getVal p rs1
      setMem p (a + offset) v
  | .lw rs1 offset reg => do
      let a ← getVal p rs1
      let v ← getMem p (a + offset)
      return setVal p reg v

/-- Program.get_inst: fetches the instruction at pc and increments pc when
pc lies in the interval from 0 to the number of instructions, and returns
None otherwise. -/
def getInst (p : AProg) : Option (AInst × AProg) :=
  if 0 ≤ p.pc ∧ p.pc < (p.insts.length : Int) then
    (p.insts.get? p.pc.toNat).map (fun i => (i, { p with pc := p.pc + 1 }))
  else none

/-- Program.eval: the fetch-execute loop, with fuel.  A normal halt (the
fetch returned None) is .ok; running out of fuel while instructions remain
is the distinguished error outOfFuel, never confused with a halt. -/
def evalN : Nat → AProg → Except RErr AProg
  | 0, p =>
    match getInst p with
    | none => .ok p
    | some _ => .error .outOfFuel
  | n + 1, p =>
    match getInst p with
    | none => .ok p
    | some (i, p') => do
        let q ← instEval i p'
        evalN n q

/-- Program.__init__: memory_size zeroed cells, the environment given by the caller,
then x0 := 0 and sp := memory_size written on top of it, pc = 0. -/
def initProgram (memorySize : Nat) (env : List (String × Int)) (insts : List AInst) : AProg :=
  { mem := List.replicate memorySize 0
    env := ("sp", (memorySize : Int)) :: ("x0", 0) :: env
    insts := insts
    pc := 0 }

/-! ### The code generator (GenVisitor of Visitor.py, stage Vpl14)

The visitor carries a counter for fresh temporary names and mutates the
program by appending instructions; here the program and the counter are
threaded explicitly.  Branch patching (BranchOp.set_target on an already
appended Beq or Jal) becomes a list update at the recorded index.

The two closure paths (visit_fn, and the closure read in visit_app and in
the lambda branch of visit_let) store Python tuples in the register map
through a side channel; the machine embedded here is integer-valued, so
those paths surface as the explicit error closureUnsupported.  None of the
claims below exercises them. -/

inductive GenErr where
  | closureUnsupported
  deriving DecidableEq, Repr

/-- Program.add_inst: append one instruction. -/
def addInst (p : AProg) (i : AInst) : AProg := { p with insts := p.insts ++ [i] }

/-- BranchOp.set_target: store the (now known) target label in the
instruction. -/
def setTarget (i : AInst) (t : Int) : AInst :=
  match i with
  | .beq a b _ => .beq a b (some t)
  | .jal rd _ => .jal rd (some t)
  | other => other

/-- Patch the instruction appended earlier at index idx with target t. -/
def patchAt (p : AProg) (idx : Nat) (t : Int) : AProg :=
  match p.insts.get? idx with
  | some i => { p with insts := p.insts.set idx (setTarget i t) }
  | none => p

/-- GenVisitor.next_var_name: increment the counter, then render tmp
followed by the new counter value. -/
def freshVar (c : Nat) : String × Nat := ("tmp" ++ natStr (c + 1), c + 1)

/-- The GenVisitor dispatch: compiles an expression into the program,
returning the symbolic register that holds the value, the grown program
and the new counter. -/
def genExp : Expr → AProg → Nat → Except GenErr (String × AProg × Nat)
  | .var x, p, c => .ok (x, p, c)
  | .bln b, p, c =>
    let (dest, c') := freshVar c
    .ok (dest, addInst p (.addi dest "x0" (if b then 1 else 0)), c')
  | .num n, p, c =>
    let (dest, c') := freshVar c
    .ok (dest, addInst p (.addi dest "x0" n), c')
  | .eql l r, p, c => do
    let (lv, p1, c1) ← genExp l p c
    let (rv, p2, c2) ← genExp r p1 c1
    let (diff, c3) := freshVar c2
    let p3 := addInst p2 (.sub diff lv rv)
    let (ltOne, c4) := freshVar c3
    let p4 := addInst p3 (.slti ltOne diff 1)
    let (ltZero, c5) := freshVar c4
    let p5 := addInst p4 (.slti ltZero diff 0)
    let (res, c6) := freshVar c5
    .ok (res, addInst p5 (.xor res ltOne ltZero), c6)
  | .and l r, p, c => do
    let (lv, p1, c1) ← genExp l p c
    let beqIdx := p1.insts.length
    let p2 := addInst p1 (.beq lv "x0" none)
    let (rv, p3, c3) ← genExp r p2 c1
    let (dest, c4) := freshVar c3
    let p4 := addInst p3 (.add dest rv "x0")
    let jalIdx := p4.insts.length
    let p5 := addInst p4 (.jal "x0" none)
    let p6 := patchAt p5 beqIdx p5.insts.length
    let p7 := addInst p6 (.addi dest "x0" 0)
    let p8 := patchAt p7 jalIdx p7.insts.length
    .ok (dest, p8, c4)
  | .or l r, p, c => do
    let (lv, p1, c1) ← genExp l p c
    let beqIdx := p1.insts.length
    let p2 := addInst p1 (.beq lv "x0" none)
    let (dest, c2) := freshVar c1
    let p3 := addInst p2 (.addi dest "x0" 1)
    let jalIdx := p3.insts.length
    let p4 := addInst p3 (.jal "x0" none)
    let p5 := patchAt p4 beqIdx p4.insts.length
    let (rv, p6, c6) ← genExp r p5 c2
    let p7 := addInst p6 (.add dest rv "x0")
    let p8 := patchAt p7 jalIdx p7.insts.length
    .ok (dest, p8, c6)
  | .add l r, p, c => do
    let (lv, p1, c1) ← genExp l p c
    let (rv, p2, c2) ← genExp r p1 c1
    let (dest, c3) := freshVar c2
    .ok (dest, addInst p2 (.add dest lv rv), c3)
  | .sub l r, p, c => do
    let (lv, p1, c1) ← genExp l p c
    let (rv, p2, c2) ← genExp r p1 c1
    let (dest, c3) := freshVar c2
    .ok (dest, addInst p2 (.sub dest lv rv), c3)
  | .mul l r, p, c => do
    let (lv, p1, c1) ← genExp l p c
    let (rv, p2, c2) ← genExp r p1 c1
    let (dest, c3) := freshVar c2
    .ok (dest, addInst p2 (.mul dest lv rv), c3)
  | .div l r, p, c => do
    let (lv, p1, c1) ← genExp l p c
    let (rv, p2, c2) ← genExp r p1 c1
    let (dest, c3) := freshVar c2
    .ok (dest, addInst p2 (.div dest lv rv), c3)
  | .leq l r, p, c => do
    let (lv, p1, c1) ← genExp l p c
    let (rv, p2, c2) ← genExp r p1 c1
    let (lowerThan, c3) := freshVar c2
    let p3 := addInst p2 (.slt lowerThan rv lv)
    let (dest, c4) := freshVar c3
    .ok (dest, addInst p3 (.xori dest lowerThan 1), c4)
  | .lth l r, p, c => do
    let (lv, p1, c1) ← genExp l p c
    let (rv, p2, c2) ← genExp r p1 c1
    let (dest, c3) := freshVar c2
    .ok (dest, addInst p2 (.slt dest lv rv), c3)
  | .neg e, p, c => do
    let (operand, p1, c1) ← genExp e p c
    let (dest, c2) := freshVar c1
    .ok (dest, addInst p1 (.sub dest "x0" operand), c2)
  | .not e, p, c => do
    let (operand, p1, c1) ← genExp e p c
    let (ltOne, c2) := freshVar c1
    let p2 := addInst p1 (.slti ltOne operand 1)
    let (ltZero, c3) := freshVar c2
    let p3 := addInst p2 (.slti ltZero operand 0)
    let (dest, c4) := freshVar c3
    .ok (dest, addInst p3 (.xor dest ltOne ltZero), c4)
  | .letE x d b, p, c => do
    let (dv, p1, c1) ← genExp d p c
    match d with
    | .fn _ _ => .error .closureUnsupported
    | _ => genExp b (addInst p1 (.add x dv "x0")) c1
  | .ite cond e0 e1, p, c => do
    let (cv, p1, c1) ← genExp cond p c
    let beqIdx := p1.insts.length
    let p2 := addInst p1 (.beq cv "x0" none)
    let (v0, p3, c3) ← genExp e0 p2 c1
    let (dest, c4) := freshVar c3
    let p4 := addInst p3 (.add dest v0 "x0")
    let jalIdx := p4.insts.length
    let p5 := addInst p4 (.jal "x0" none)
    let p6 := patchAt p5 beqIdx p5.insts.length
    let (v1, p7, c7) ← genExp e1 p6 c4
    let p8 := addInst p7 (.add dest v1 "x0")
    let p9 := patchAt p8 jalIdx p8.insts.length
    .ok (dest, p9, c7)
  | .fn _ _, _, _ => .error .closureUnsupported
  | .app _ _, _, _ => .error .closureUnsupported

/-! ### The renamer (RenameVisitor of Visitor.py, stage Vpl14)

The visitor mutates the AST in place and carries an immutable name map
plus a global counter; here the rewritten AST and the counter are returned
and the name map is an association list extended at the front (which is
how dict(name_map) followed by one overwrite behaves for get). -/

/-- Name map lookup, first binding wins. -/
def mapGet : List (String × String) → String → Option String
  | [], _ => none
  | (k, v) :: rest, name => if k = name then some v else mapGet rest name

/-- RenameVisitor.rename: build base followed by an underscore and the
current counter value, then increment the counter. -/
def renameFresh (base : String) (c : Nat) : String × Nat :=
  (base ++ "_" ++ natStr c, c + 1)

/-- The RenameVisitor dispatch.  A Var is rewritten when its identifier is
in the map.  Let renames its definition under the outer map, then renames
the binder, then renames the body under the extended map; Fn renames its
formal and then its body under the extended map.  Everything else just
recurses left to right. -/
def rename : Expr → List (String × String) → Nat → Expr × Nat
  | .var x, m, c =>
    (match mapGet m x with
     | some y => .var y
     | none => .var x, c)
  | .num n, _, c => (.num n, c)
  | .bln b, _, c => (.bln b, c)
  | .eql l r, m, c =>
    let (l', c1) := rename l m c
    let (r', c2) := rename r m c1
    (.eql l' r', c2)
  | .and l r, m, c =>
    let (l', c1) := rename l m c
    let (r', c2) := rename r m c1
    (.and l' r', c2)
  | .or l r, m, c =>
    let (l', c1) := rename l m c
    let (r', c2) := rename r m c1
    (.or l' r', c2)
  | .add l r, m, c =>
    let (l', c1) := rename l m c
    let (r', c2) := rename r m c1
    (.add l' r', c2)
  | .sub l r, m, c =>
    let (l', c1) := rename l m c
    let (r', c2) := rename r m c1
    (.sub l' r', c2)
  | .mul l r, m, c =>
    let (l', c1) := rename l m c
    let (r', c2) := rename r m c1
    (.mul l' r', c2)
  | .div l r, m, c =>
    let (l', c1) := rename l m c
    let (r', c2) := rename r m c1
    (.div l' r', c2)
  | .leq l r, m, c =>
    let (l', c1) := rename l m c
    let (r', c2) := rename r m c1
    (.leq l' r', c2)
  | .lth l r, m, c =>
    let (l', c1) := rename l m c
    let (r', c2) := rename r m c1
    (.lth l' r', c2)
  | .neg e, m, c =>
    let (e', c1) := rename e m c
    (.neg e', c1)
  | .not e, m, c =>
    let (e', c1) := rename e m c
    (.not e', c1)
  | .letE x d b, m, c =>
    let (d', c1) := rename d m c
    let (nx, c2) := renameFresh x c1
    let (b', c3) := rename b ((x, nx) :: m) c2
    (.letE nx d' b', c3)
  | .ite cnd e0 e1, m, c =>
    let (cnd', c1) := rename cnd m c
    let (e0', c2) := rename e0 m c1
    let (e1', c3) := rename e1 m c2
    (.ite cnd' e0' e1', c3)
  | .fn x b, m, c =>
    let (nx, c1) := renameFresh x c
    let (b', c2) := rename b ((x, nx) :: m) c1
    (.fn nx b', c2)
  | .app f a, m, c =>
    let (f', c1) := rename f m c
    let (a', c2) := rename a m c1
    (.app f' a', c2)

/-- All binder occurrences of an AST (Let identifiers and Fn formals), in
traversal order of the renamer. -/
def binders : Expr → List String
  | .var _ | .num _ | .bln _ => []
  | .eql l r | .and l r | .or l r | .add l r | .sub l r
  | .mul l r | .div l r | .leq l r | .lth l r => binders l ++ binders r
  | .neg e | .not e => binders e
  | .letE x d b => binders d ++ x :: binders b
  | .ite cnd e0 e1 => binders cnd ++ binders e0 ++ binders e1
  | .fn x b => x :: binders b
  | .app f a => binders f ++ binders a

/-- RenameSpec m e eR formalizes how the specification describes of the
renamer, independently of the counter: e' has the shape of e; every use of
a variable bound in the current scope is rewritten to the renamed binder
recorded for it in m (so all uses in one scope get the same new name, the
binder's); a variable with no binder in scope is left unchanged; each Let
renames its definition outside the scope of the binder and its body inside it,
and each Fn renames its body inside the scope of its formal. -/
def RenameSpec : List (String × String) → Expr → Expr → Prop
  | m, .var x, e' => e' = .var ((mapGet m x).getD x)
  | _, .num n, e' => e' = .num n
  | _, .bln b, e' => e' = .bln b
  | m, .eql l r, .eql l' r' => RenameSpec m l l' ∧ RenameSpec m r r'
  | m, .and l r, .and l' r' => RenameSpec m l l' ∧ RenameSpec m r r'
  | m, .or l r, .or l' r' => RenameSpec m l l' ∧ RenameSpec m r r'
  | m, .add l r, .add l' r' => RenameSpec m l l' ∧ RenameSpec m r r'
  | m, .sub l r, .sub l' r' => RenameSpec m l l' ∧ RenameSpec m r r'
  | m, .mul l r, .mul l' r' => RenameSpec m l l' ∧ RenameSpec m r r'
  | m, .div l r, .div l' r' => RenameSpec m l l' ∧ RenameSpec m r r'
  | m, .leq l r, .leq l' r' => RenameSpec m l l' ∧ RenameSpec m r r'
  | m, .lth l r, .lth l' r' => RenameSpec m l l' ∧ RenameSpec m r r'
  | m, .neg e, .neg e' => RenameSpec m e e'
  | m, .not e, .not e' => RenameSpec m e e'
  | m, .letE x d b, .letE x' d' b' => RenameSpec m d d' ∧ RenameSpec ((x, x') :: m) b b'
  | m, .ite cnd e0 e1, .ite cnd' e0' e1' =>
      RenameSpec m cnd cnd' ∧ RenameSpec m e0 e0' ∧ RenameSpec m e1 e1'
  | m, .fn x b, .fn x' b' => RenameSpec ((x, x') :: m) b b'
  | m, .app f a, .app f' a' => RenameSpec m f f' ∧ RenameSpec m a a'
  | _, _, _ => False

/-! ### The lexer (Lexer.py, stage Vpl14)

The token kinds of the TokenType enumeration, the Token pair, and the
getToken scanner.  The scanner walks a cursor over an immutable string;
here the not-yet-consumed suffix of the source is passed as a list of
characters, which is the same information as the cursor position.  The
ValueError raised on an unterminated block comment and on an unexpected
character become typed errors. -/

inductive TT where
  | EOF | NLN | WSP | COM | NUM | STR | TRU | FLS | VAR | LET | INX | END
  | EQL | ADD | SUB | MUL | DIV | LEQ | LTH | NEG | NOT | LPR | RPR | ASN
  | ORX | AND | IFX | THN | ELS | FNX | ARW | TPF | COL | INT | LGC
  deriving DecidableEq, Repr

/-- The name attribute of the TokenType enum members, as used in parser
error messages. -/
def ttName : TT → String
  | .EOF => "EOF" | .NLN => "NLN" | .WSP => "WSP" | .COM => "COM"
  | .NUM => "NUM" | .STR => "STR" | .TRU => "TRU" | .FLS => "FLS"
  | .VAR => "VAR" | .LET => "LET" | .INX => "INX" | .END => "END"
  | .EQL => "EQL" | .ADD => "ADD" | .SUB => "SUB" | .MUL => "MUL"
  | .DIV => "DIV" | .LEQ => "LEQ" | .LTH => "LTH" | .NEG => "NEG"
  | .NOT => "NOT" | .LPR => "LPR" | .RPR => "RPR" | .ASN => "ASN"
  | .ORX => "ORX" | .AND => "AND" | .IFX => "IFX" | .THN => "THN"
  | .ELS => "ELS" | .FNX => "FNX" | .ARW => "ARW" | .TPF => "TPF"
  | .COL => "COL" | .INT => "INT" | .LGC => "LGC"

structure Token where
  text : String
  kind : TT
  deriving DecidableEq, Repr

inductive LexErr where
  | unterminatedComment
  | unexpectedChar (c : Char)
  | outOfFuel
  deriving DecidableEq, Repr

/-- The keyword table of getToken: a scanned word is looked up here and
falls back to an identifier. -/
def keywordKind (text : String) : TT :=
  match text with
  | "let" => .LET
  | "in" => .INX
  | "end" => .END
  | "true" => .TRU
  | "false" => .FLS
  | "if" => .IFX
  | "then" => .THN
  | "else" => .ELS
  | "or" => .ORX
  | "and" => .AND
  | "not" => .NOT
  | "fn" => .FNX
  | "int" => .INT
  | "bool" => .LGC
  | _ => .VAR

/-- The block comment scan of getToken: find the first closing star-paren,
returning the consumed characters and the rest, or none when the comment
is unterminated. -/
def scanBC : List Char → Option (List Char × List Char)
  | '*' :: ')' :: rest => some (['*', ')'], rest)
  | c :: rest =>
    match scanBC rest with
    | some (body, r) => some (c :: body, r)
    | none => none
  | [] => none

/-- Lexer.getToken: produce the next token and the remaining input.  The
branches appear in the order of the Python method: end of input, newline,
whitespace, line comment, block comment, number, word, then the operator
characters. -/
def getTokenL : List Char → Except LexErr (Token × List Char)
  | [] => .ok (⟨"", .EOF⟩, [])
  | c :: cs =>
    if c = '\n' then .ok (⟨"\n", .NLN⟩, cs)
    else if c = ' ' ∨ c = '\t' ∨ c = '\r' then .ok (⟨String.mk [c], .WSP⟩, cs)
    else if c = '-' ∧ cs.head? = some '-' then
      let body := (cs.drop 1).takeWhile (fun ch => ch ≠ '\n')
      let rest := (cs.drop 1).dropWhile (fun ch => ch ≠ '\n')
      .ok (⟨String.mk ('-' :: '-' :: body), .COM⟩, rest)
    else if c = '(' ∧ cs.head? = some '*' then
      match scanBC (cs.drop 1) with
      | some (body, rest) => .ok (⟨String.mk ('(' :: '*' :: body), .COM⟩, rest)
      | none => .error .unterminatedComment
    else if c.isDigit then
      .ok (⟨String.mk (c :: cs.takeWhile Char.isDigit), .NUM⟩, cs.dropWhile Char.isDigit)
    else if c.isAlpha then
      let word := String.mk (c :: cs.takeWhile (fun ch => ch.isAlphanum ∨ ch = '_'))
      .ok (⟨word, keywordKind word⟩, cs.dropWhile (fun ch => ch.isAlphanum ∨ ch = '_'))
    else if c = '+' then .ok (⟨"+", .ADD⟩, cs)
    else if c = '-' then
      match cs with
      | '>' :: rest => .ok (⟨"->", .TPF⟩, rest)
      | _ => .ok (⟨"-", .SUB⟩, cs)
    else if c = '*' then .ok (⟨"*", .MUL⟩, cs)
    else if c = '/' then .ok (⟨"/", .DIV⟩, cs)
    else if c = '<' then
      match cs with
      | '-' :: rest => .ok (⟨"<-", .ASN⟩, rest)
      | '=' :: rest => .ok (⟨"<=", .LEQ⟩, rest)
      | _ => .ok (⟨"<", .LTH⟩, cs)
    else if c = '=' then
      match cs with
      | '>' :: rest => .ok (⟨"=>", .ARW⟩, rest)
      | '=' :: rest => .ok (⟨"==", .EQL⟩, rest)
      | _ => .ok (⟨"=", .EQL⟩, cs)
    else if c = '~' then .ok (⟨"~", .NEG⟩, cs)
    else if c = ':' then .ok (⟨":", .COL⟩, cs)
    else if c = '(' then .ok (⟨"(", .LPR⟩, cs)
    else if c = ')' then .ok (⟨")", .RPR⟩, cs)
    else .error (.unexpectedChar c)

/-- Lexer.tokens: repeat getToken until the end-of-file token, filtering
out whitespace, comments and newlines.  Each getToken on nonempty input
consumes at least one character, so fuel equal to the input length plus
one always suffices. -/
def lexAll : Nat → List Char → Except LexErr (List Token)
  | 0, _ => .error .outOfFuel
  | fuel + 1, cs => do
    let (t, rest) ← getTokenL cs
    if t.kind = .EOF then .ok []
    else do
      let ts ← lexAll fuel rest
      if t.kind = .WSP ∨ t.kind = .COM ∨ t.kind = .NLN then .ok ts else .ok (t :: ts)

/-! ### The parser (Parser.py, stage Vpl14)

The Parser object keeps the token list (with one EOF sentinel appended by
the constructor) and a cursor index.  sys.exit on a parse error becomes
the typed error parseError; an out-of-bounds list access in _current
would become indexOutOfBounds (the cursor safety theorem below shows it
cannot happen).  The recursive-descent methods take fuel, decremented on
every nested call. -/

inductive PErr where
  | parseError (msg : String)
  | indexOutOfBounds
  | outOfFuel
  deriving DecidableEq, Repr

/-- The parser state: the token buffer and the cursor. -/
structure ParserSt where
  tokens : List Token
  idx : Nat
  deriving DecidableEq, Repr

/-- Parser.__init__: buffer the tokens, append one EOF sentinel, cursor
at zero. -/
def parserInit (ts : List Token) : ParserSt :=
  { tokens := ts ++ [⟨"", .EOF⟩], idx := 0 }

/-- Parser._current: the token at the cursor; indexing past the buffer
would raise in Python and is the error indexOutOfBounds here. -/
def pcur (s : ParserSt) : Except PErr Token :=
  match s.tokens.get? s.idx with
  | some t => .ok t
  | none => .error .indexOutOfBounds

/-- Parser._advance: move the cursor forward unless it already points at
the last buffered token (the EOF sentinel). -/
def padvance (s : ParserSt) : ParserSt :=
  if s.idx < s.tokens.length - 1 then { s with idx := s.idx + 1 } else s

/-- Parser._expect: check the current token kind, fail with the Python
error message otherwise, then advance and return the token. -/
def expectTT (tt : TT) (s : ParserSt) : Except PErr (Token × ParserSt) := do
  let t ← pcur s
  if t.kind ≠ tt then .error (.parseError ("Expected " ++ ttName tt))
  else .ok (t, padvance s)

/-- Parser._is_application_start. -/
def isAppStart (s : ParserSt) : Except PErr Bool := do
  let t ← pcur s
  return t.kind = .NUM ∨ t.kind = .TRU ∨ t.kind = .FLS ∨ t.kind = .VAR ∨ t.kind = .LPR
    ∨ t.kind = .LET ∨ t.kind = .FNX ∨ t.kind = .NEG ∨ t.kind = .NOT

/-- Python int() applied to the digit-only text of a NUM token. -/
def numOfText (t : String) : Int := (decDigits t.data : Int)

mutual

/-- Parser._parse_expression. -/
def parseExpression : Nat → ParserSt → Except PErr (Expr × ParserSt)
  | 0, _ => .error .outOfFuel
  | fuel + 1, s => do
    let t ← pcur s
    if t.kind = .IFX then do
      let (cond, s1) ← parseOrE fuel (padvance s)
      let (_, s2) ← expectTT .THN s1
      let (e0, s3) ← parseExpression fuel s2
      let (_, s4) ← expectTT .ELS s3
      let (e1, s5) ← parseExpression fuel s4
      let (_, s6) ← expectTT .END s5
      return (.ite cond e0 e1, s6)
    else if t.kind = .FNX then parseLambda fuel s
    else parseOrE fuel s

/-- Parser._parse_or. -/
def parseOrE : Nat → ParserSt → Except PErr (Expr × ParserSt)
  | 0, _ => .error .outOfFuel
  | fuel + 1, s => do
    let (left, s1) ← parseAnd fuel s
    parseOrLoop fuel left s1

/-- The while loop of _parse_or. -/
def parseOrLoop : Nat → Expr → ParserSt → Except PErr (Expr × ParserSt)
  | 0, _, _ => .error .outOfFuel
  | fuel + 1, left, s => do
    let t ← pcur s
    if t.kind = .ORX then do
      let (right, s1) ← parseAnd fuel (padvance s)
      parseOrLoop fuel (.or left right) s1
    else return (left, s)

/-- Parser._parse_and. -/
def parseAnd : Nat → ParserSt → Except PErr (Expr × ParserSt)
  | 0, _ => .error .outOfFuel
  | fuel + 1, s => do
    let (left, s1) ← parseEquality fuel s
    parseAndLoop fuel left s1

/-- The while loop of _parse_and. -/
def parseAndLoop : Nat → Expr → ParserSt → Except PErr (Expr × ParserSt)
  | 0, _, _ => .error .outOfFuel
  | fuel + 1, left, s => do
    let t ← pcur s
    if t.kind = .AND then do
      let (right, s1) ← parseEquality fuel (padvance s)
      parseAndLoop fuel (.and left right) s1
    else return (left, s)

/-- Parser._parse_let: note that no type annotation is consumed between
the bound variable and the assignment arrow. -/
def parseLet : Nat → ParserSt → Except PErr (Expr × ParserSt)
  | 0, _ => .error .outOfFuel
  | fuel + 1, s => do
    let (_, s1) ← expectTT .LET s
    let (idTok, s2) ← expectTT .VAR s1
    let (_, s3) ← expectTT .ASN s2
    let (expDef, s4) ← parseExpression fuel s3
    let (_, s5) ← expectTT .INX s4
    let (expBody, s6) ← parseExpression fuel s5
    let (_, s7) ← expectTT .END s6
    return (.letE idTok.text expDef expBody, s7)

/-- Parser._parse_lambda. -/
def parseLambda : Nat → ParserSt → Except PErr (Expr × ParserSt)
  | 0, _ => .error .outOfFuel
  | fuel + 1, s => do
    let (_, s1) ← expectTT .FNX s
    let (formalTok, s2) ← expectTT .VAR s1
    let (_, s3) ← expectTT .ARW s2
    let (body, s4) ← parseExpression fuel s3
    return (.fn formalTok.text body, s4)

/-- Parser._parse_equality. -/
def parseEquality : Nat → ParserSt → Except PErr (Expr × ParserSt)
  | 0, _ => .error .outOfFuel
  | fuel + 1, s => do
    let (left, s1) ← parseComparison fuel s
    parseEqLoop fuel left s1

/-- The while loop of _parse_equality. -/
def parseEqLoop : Nat → Expr → ParserSt → Except PErr (Expr × ParserSt)
  | 0, _, _ => .error .outOfFuel
  | fuel + 1, left, s => do
    let t ← pcur s
    if t.kind = .EQL then do
      let (right, s1) ← parseComparison fuel (padvance s)
      parseEqLoop fuel (.eql left right) s1
    else return (left, s)

/-- Parser._parse_comparison. -/
def parseComparison : Nat → ParserSt → Except PErr (Expr × ParserSt)
  | 0, _ => .error .outOfFuel
  | fuel + 1, s => do
    let (left, s1) ← parseAdditive fuel s
    parseCmpLoop fuel left s1

/-- The while loop of _parse_comparison. -/
def parseCmpLoop : Nat → Expr → ParserSt → Except PErr (Expr × ParserSt)
  | 0, _, _ => .error .outOfFuel
  | fuel + 1, left, s => do
    let t ← pcur s
    if t.kind = .LEQ then do
      let (right, s1) ← parseAdditive fuel (padvance s)
      parseCmpLoop fuel (.leq left right) s1
    else if t.kind = .LTH then do
      let (right, s1) ← parseAdditive fuel (padvance s)
      parseCmpLoop fuel (.lth left right) s1
    else return (left, s)

/-- Parser._parse_application. -/
def parseApplication : Nat → ParserSt → Except PErr (Expr × ParserSt)
  | 0, _ => .error .outOfFuel
  | fuel + 1, s => do
    let (left, s1) ← parseMultiplicative fuel s
    parseAppLoop fuel left s1

/-- The while loop of _parse_application. -/
def parseAppLoop : Nat → Expr → ParserSt → Except PErr (Expr × ParserSt)
  | 0, _, _ => .error .outOfFuel
  | fuel + 1, left, s => do
    let b ← isAppStart s
    if b then do
      let (right, s1) ← parseMultiplicative fuel s
      parseAppLoop fuel (.app left right) s1
    else return (left, s)

/-- Parser._parse_additive. -/
def parseAdditive : Nat → ParserSt → Except PErr (Expr × ParserSt)
  | 0, _ => .error .outOfFuel
  | fuel + 1, s => do
    let (left, s1) ← parseApplication fuel s
    parseAddLoop fuel left s1

/-- The while loop of _parse_additive. -/
def parseAddLoop : Nat → Expr → ParserSt → Except PErr (Expr × ParserSt)
  | 0, _, _ => .error .outOfFuel
  | fuel + 1, left, s => do
    let t ← pcur s
    if t.kind = .ADD then do
      let (right, s1) ← parseApplication fuel (padvance s)
      parseAddLoop fuel (.add left right) s1
    else if t.kind = .SUB then do
      let (right, s1) ← parseApplication fuel (padvance s)
      parseAddLoop fuel (.sub left right) s1
    else return (left, s)

/-- Parser._parse_multiplicative. -/
def parseMultiplicative : Nat → ParserSt → Except PErr (Expr × ParserSt)
  | 0, _ => .error .outOfFuel
  | fuel + 1, s => do
    let (left, s1) ← parseUnary fuel s
    parseMulLoop fuel left s1

/-- The while loop of _parse_multiplicative. -/
def parseMulLoop : Nat → Expr → ParserSt → Except PErr (Expr × ParserSt)
  | 0, _, _ => .error .outOfFuel
  | fuel + 1, left, s => do
    let t ← pcur s
    if t.kind = .MUL then do
      let (right, s1) ← parseUnary fuel (padvance s)
      parseMulLoop fuel (.mul left right) s1
    else if t.kind = .DIV then do
      let (right, s1) ← parseUnary fuel (padvance s)
      parseMulLoop fuel (.div left right) s1
    else return (left, s)

/-- Parser._parse_unary. -/
def parseUnary : Nat → ParserSt → Except PErr (Expr × ParserSt)
  | 0, _ => .error .outOfFuel
  | fuel + 1, s => do
    let t ← pcur s
    if t.kind = .NEG then do
      let (e, s1) ← parseUnary fuel (padvance s)
      return (.neg e, s1)
    else if t.kind = .NOT then do
      let (e, s1) ← parseUnary fuel (padvance s)
      return (.not e, s1)
    else parsePrimary fuel s

/-- Parser._parse_primary. -/
def parsePrimary : Nat → ParserSt → Except PErr (Expr × ParserSt)
  | 0, _ => .error .outOfFuel
  | fuel + 1, s => do
    let t ← pcur s
    if t.kind = .NUM then return (.num (numOfText t.text), padvance s)
    else if t.kind = .TRU then return (.bln true, padvance s)
    else if t.kind = .FLS then return (.bln false, padvance s)
    else if t.kind = .VAR then return (.var t.text, padvance s)
    else if t.kind = .LPR then do
      let (e, s1) ← parseExpression fuel (padvance s)
      let (_, s2) ← expectTT .RPR s1
      return (e, s2)
    else if t.kind = .LET then parseLet fuel s
    else if t.kind = .FNX then parseLambda fuel s
    else if t.kind = .IFX then parseExpression fuel s
    else .error (.parseError "Unexpected token")

end

/-- Parser.parse: the whole expression followed by the EOF sentinel. -/
def parseTokens (fuel : Nat) (s : ParserSt) : Except PErr (Expr × ParserSt) := do
  let (e, s1) ← parseExpression fuel s
  let (_, s2) ← expectTT .EOF s1
  return (e, s2)

/-! ### The driver pipeline (driver.py, stage Vpl14)

Read the whole source, lex, parse, rename from an empty map, generate
code into Program(memory_size=1000, env={}, insts=[]), evaluate, and read
the answer register. -/

inductive PipeErr where
  | lex (e : LexErr)
  | parse (e : PErr)
  | gen (e : GenErr)
  | run (e : RErr)
  deriving DecidableEq, Repr

def runPipeline (text : String) : Except PipeErr Int :=
  let cs := text.data
  match lexAll (cs.length + 1) cs with
  | .error e => .error (.lex e)
  | .ok ts =>
    match parseTokens (20 * (ts.length + 1)) (parserInit ts) with
    | .error e => .error (.parse e)
    | .ok (e, _) =>
      let (e', _) := rename e [] 0
      match genExp e' (initProgram 1000 [] []) 0 with
      | .error g => .error (.gen g)
      | .ok (varAnswer, p, _) =>
        match evalN 100000 p with
        | .error r => .error (.run r)
        | .ok pf =>
          match envGet pf.env varAnswer with
          | some value => .ok value
          | none => .error (.run (.undefinedRegister varAnswer))

/-! ### The constraint generator (CtrGenVisitor of Visitor.py, stage Vpl9)

The Vpl9 AST additionally has Mod and Fun nodes.  Constraint sides are
Python values that are either a string (an identifier or a type variable
TV_n) or one of the type objects int and bool; there is no arrow type
anywhere in this stage.  Constraints are a Python set of pairs. -/

inductive Exp9 where
  | num (n : Int)
  | bln (b : Bool)
  | var (identifier : String)
  | eql (left right : Exp9)
  | and (left right : Exp9)
  | or (left right : Exp9)
  | add (left right : Exp9)
  | sub (left right : Exp9)
  | mul (left right : Exp9)
  | div (left right : Exp9)
  | mod (left right : Exp9)
  | leq (left right : Exp9)
  | lth (left right : Exp9)
  | neg (exp : Exp9)
  | not (exp : Exp9)
  | letE (identifier : String) (expDef expBody : Exp9)
  | ite (cond e0 e1 : Exp9)
  | fn (formal : String) (body : Exp9)
  | fun_ (name formal : String) (body : Exp9)
  | app (function actual : Exp9)
  deriving DecidableEq, Repr

/-- One side of a constraint: a string (identifier or type variable name)
or one of the Python type objects int and bool. -/
inductive TyE where
  | id (s : String)
  | int
  | bool
  deriving DecidableEq, Repr

/-- CtrGenVisitor.fresh_type_var: increment the counter, then render TV_
followed by the new counter value. -/
def freshTV (c : Nat) : TyE × Nat := (.id ("TV_" ++ natStr (c + 1)), c + 1)

/-- The CtrGenVisitor dispatch: the set of constraints produced for the
expression against the placeholder typeVar, threading the fresh counter. -/
def ctrGen : Exp9 → TyE → Nat → Finset (TyE × TyE) × Nat
  | .var x, typeVar, c => ({(.id x, typeVar)}, c)
  | .bln _, typeVar, c => ({(.bool, typeVar)}, c)
  | .num _, typeVar, c => ({(.int, typeVar)}, c)
  | .eql l r, typeVar, c =>
    let (tv1, c1) := freshTV c
    let (kl, c2) := ctrGen l tv1 c1
    let (kr, c3) := ctrGen r tv1 c2
    (kl ∪ kr ∪ {(.bool, typeVar)}, c3)
  | .and l r, typeVar, c =>
    let (kl, c1) := ctrGen l .bool c
    let (kr, c2) := ctrGen r .bool c1
    (kl ∪ kr ∪ {(.bool, typeVar)}, c2)
  | .or l r, typeVar, c =>
    let (kl, c1) := ctrGen l .bool c
    let (kr, c2) := ctrGen r .bool c1
    (kl ∪ kr ∪ {(.bool, typeVar)}, c2)
  | .add l r, typeVar, c =>
    let (kl, c1) := ctrGen l .int c
    let (kr, c2) := ctrGen r .int c1
    (kl ∪ kr ∪ {(.int, typeVar)}, c2)
  | .sub l r, typeVar, c =>
    let (kl, c1) := ctrGen l .int c
    let (kr, c2) := ctrGen r .int c1
    (kl ∪ kr ∪ {(.int, typeVar)}, c2)
  | .mul l r, typeVar, c =>
    let (kl, c1) := ctrGen l .int c
    let (kr, c2) := ctrGen r .int c1
    (kl ∪ kr ∪ {(.int, typeVar)}, c2)
  | .div l r, typeVar, c =>
    let (kl, c1) := ctrGen l .int c
    let (kr, c2) := ctrGen r .int c1
    (kl ∪ kr ∪ {(.int, typeVar)}, c2)
  | .mod l r, typeVar, c =>
    let (kl, c1) := ctrGen l .int c
    let (kr, c2) := ctrGen r .int c1
    (kl ∪ kr ∪ {(.int, typeVar)}, c2)
  | .leq l r, typeVar, c =>
    let (kl, c1) := ctrGen l .int c
    let (kr, c2) := ctrGen r .int c1
    (kl ∪ kr ∪ {(.bool, typeVar)}, c2)
  | .lth l r, typeVar, c =>
    let (kl, c1) := ctrGen l .int c
    let (kr, c2) := ctrGen r .int c1
    (kl ∪ kr ∪ {(.bool, typeVar)}, c2)
  | .neg e, typeVar, c =>
    let (ke, c1) := ctrGen e .int c
    (ke ∪ {(.int, typeVar)}, c1)
  | .not e, typeVar, c =>
    let (ke, c1) := ctrGen e .bool c
    (ke ∪ {(.bool, typeVar)}, c1)
  | .letE x d b, typeVar, c =>
    let (k0, c1) := ctrGen d (.id x) c
    let (tv2, c2) := freshTV c1
    let (k1, c3) := ctrGen b tv2 c2
    (k0 ∪ k1 ∪ {(tv2, typeVar)}, c3)
  | .ite cnd e0 e1, typeVar, c =>
    let (kc, c1) := ctrGen cnd .bool c
    let (tv2, c2) := freshTV c1
    let (kt, c3) := ctrGen e0 tv2 c2
    let (ke, c4) := ctrGen e1 tv2 c3
    (kc ∪ kt ∪ ke ∪ {(tv2, typeVar)}, c4)
  | .fn _ b, typeVar, c =>
    let (_, c1) := freshTV c
    let (tvBody, c2) := freshTV c1
    let (kb, c3) := ctrGen b tvBody c2
    (kb ∪ {(tvBody, typeVar)}, c3)
  | .fun_ _ _ b, typeVar, c =>
    let (_, c1) := freshTV c
    let (tvBody, c2) := freshTV c1
    let (kb, c3) := ctrGen b tvBody c2
    (kb ∪ {(tvBody, typeVar)}, c3)
  | .app f a, typeVar, c =>
    let (tvFunc, c1) := freshTV c
    let (tvArg, c2) := freshTV c1
    let (kf, c3) := ctrGen f tvFunc c2
    let (ka, c4) := ctrGen a tvArg c3
    (kf ∪ ka ∪ {(tvFunc, typeVar)}, c4)

/-- Iterated Parser._advance, to quantify over every sequence of parsing
steps: _advance is the only operation of the parser that moves the
cursor. -/
def advanceN : Nat → ParserSt → ParserSt
  | 0, s => s
  | n + 1, s => advanceN n (padvance s)

/-- Run the machine for at most fuel steps and then read one register:
the composition of Program.eval with Program.get_val that the driver
performs to print the answer. -/
def runAndRead (fuel : Nat) (p : AProg) (r : String) : Except RErr Int := do
  let q ← evalN fuel p
  getVal q r

/-- Extends p q says that q is p with some instructions appended at the
end and everything else unchanged: the shape in which the code generator
grows a program (appends, plus patches of its own appended branches). -/
def Extends (p q : AProg) : Prop :=
  (∃ tail, q.insts = p.insts ++ tail) ∧ q.env = p.env ∧ q.mem = p.mem ∧ q.pc = p.pc

/-! ## Theorems -/

/-! ### Properties of the decimal rendering -/

theorem digChar_toNat {d : Nat} (h : d < 10) : (digChar d).toNat = 48 + d := by
  interval_cases d <;> rfl

theorem digChar_ne_underscore {d : Nat} (h : d < 10) : digChar d ≠ '_' := by
  interval_cases d <;> decide

theorem decDigits_concat (l : List Char) (c : Char) :
    decDigits (l ++ [c]) = 10 * decDigits l + (c.toNat - 48) := by
  simp [decDigits, List.foldl_append]

theorem decDigits_natDigitsAux : ∀ fuel n, n ≤ fuel → decDigits (natDigitsAux fuel n) = n := by
  intro fuel
  induction fuel with
  | zero =>
    intro n hn
    have : n = 0 := Nat.le_zero.mp hn
    subst this
    simp [natDigitsAux, decDigits, digChar_toNat]
  | succ f ih =>
    intro n hn
    by_cases h : n < 10
    · simp [natDigitsAux, h, decDigits, digChar_toNat h]
    · have hd : n / 10 ≤ f := by
        have := Nat.div_lt_self (by omega : 0 < n) (by omega : 1 < 10)
        omega
      have hm : n % 10 < 10 := Nat.mod_lt _ (by omega)
      simp only [natDigitsAux, if_neg h, decDigits_concat, ih _ hd, digChar_toNat hm]
      omega

theorem underscore_not_mem_natDigitsAux : ∀ fuel n, '_' ∉ natDigitsAux fuel n := by
  intro fuel
  induction fuel with
  | zero =>
    intro n
    simp only [natDigitsAux, List.mem_singleton]
    intro he
    exact digChar_ne_underscore (Nat.mod_lt _ (by omega)) he.symm
  | succ f ih =>
    intro n
    by_cases h : n < 10
    · simp only [natDigitsAux, if_pos h, List.mem_singleton]
      intro he
      exact digChar_ne_underscore h he.symm
    · simp only [natDigitsAux, if_neg h, List.mem_append, List.mem_singleton]
      rintro (hmem | he)
      · exact ih _ hmem
      · exact digChar_ne_underscore (Nat.mod_lt _ (by omega)) he.symm

theorem natStr_injective {m n : Nat} (h : natStr m = natStr n) : m = n := by
  have hd : natDigitsAux m m = natDigitsAux n n := by
    have := congrArg String.data h
    simpa [natStr, List.asString] using this
  have h1 := decDigits_natDigitsAux m m le_rfl
  have h2 := decDigits_natDigitsAux n n le_rfl
  rw [← h1, ← h2, hd]

/-! ### Helper lemmas about the machine -/

theorem envGet_setVal_x0 (p : AProg) (name : String) (v : Int) :
    envGet (setVal p name v).env "x0" = envGet p.env "x0" := by
  unfold setVal
  split
  · rfl
  · rename_i h
    simp [envGet, h]

theorem setVal_env_cases (p : AProg) (name : String) (v : Int) :
    (setVal p name v).env = p.env ∨ (setVal p name v).env = (name, v) :: p.env := by
  unfold setVal
  split
  · exact Or.inl rfl
  · exact Or.inr rfl

theorem instEval_envGet_x0 (i : AInst) (p q : AProg) (h : instEval i p = .ok q) :
    envGet q.env "x0" = envGet p.env "x0" := by
  cases i <;>
    simp only [instEval, bind, Except.bind, pure, Except.pure, setMem, getMem] at h <;>
    (repeat' split at h) <;>
    simp_all <;>
    (try subst h) <;>
    simp [envGet_setVal_x0]

theorem getInst_state (p : AProg) (i : AInst) (p' : AProg) (h : getInst p = some (i, p')) :
    p'.env = p.env ∧ p'.mem = p.mem ∧ p'.insts = p.insts := by
  unfold getInst at h
  split at h
  · cases hg : p.insts.get? p.pc.toNat <;> rw [hg] at h <;> simp only [Option.map] at h
    · cases h
    · injection h with h2
      injection h2 with h3 h4
      subst h4
      exact ⟨rfl, rfl, rfl⟩
  · cases h

theorem evalN_envGet_x0 (n : Nat) (p q : AProg) (h : evalN n p = .ok q)
    (h0 : envGet p.env "x0" = some 0) : envGet q.env "x0" = some 0 := by
  induction n generalizing p with
  | zero =>
    unfold evalN at h
    split at h
    · cases h; exact h0
    · cases h
  | succ n ih =>
    cases hget : getInst p with
    | none =>
      unfold evalN at h
      rw [hget] at h
      cases h
      exact h0
    | some ip =>
      obtain ⟨i, p'⟩ := ip
      unfold evalN at h
      rw [hget] at h
      simp only [bind, Except.bind] at h
      cases hi : instEval i p' <;> rw [hi] at h
      · cases h
      · rename_i r
        have henv : p'.env = p.env := (getInst_state p i p' hget).1
        have : envGet r.env "x0" = some 0 := by
          rw [instEval_envGet_x0 i p' r hi, henv]; exact h0
        exact ih r h this

/-! ### Claim C1 -/

/-- C1: for every program and caller-supplied initial environment, at
every step of interpretation reading x0 yields 0: Program.__init__ sets
x0 to 0, every write targeting x0 through set_val is silently discarded
leaving the rest of the environment unchanged, and hence after any number
of fetch-execute steps get_val of x0 still returns 0. -/
theorem c1_x0_read_only :
    (∀ (p : AProg) (v : Int), setVal p "x0" v = p) ∧
    (∀ (ms : Nat) (env : List (String × Int)) (insts : List AInst) (n : Nat) (q : AProg),
      evalN n (initProgram ms env insts) = .ok q → getVal q "x0" = .ok 0) := by
  constructor
  · intro p v
    simp [setVal]
  · intro ms env insts n q h
    have h0 : envGet (initProgram ms env insts).env "x0" = some 0 := by
      simp [initProgram, envGet]
    have := evalN_envGet_x0 n _ q h h0
    simp [getVal, this]

theorem c1_x0_read_only_witness :
    setVal ⟨[], [("x0", 0)], [], 0⟩ "x0" 5 = ⟨[], [("x0", 0)], [], 0⟩ ∧
    getVal ⟨[], [("sp", 0), ("x0", 0), ("b0", 2), ("b1", 3)], [.add "x0" "b0" "b1"], 1⟩ "x0" =
      .ok 0 :=
  ⟨c1_x0_read_only.1 _ 5,
   c1_x0_read_only.2 0 [("b0", 2), ("b1", 3)] [.add "x0" "b0" "b1"] 2 _ rfl⟩

/-! ### Claim C5 -/

/-- C5: executing div with a nonzero divisor stores the floor division of
the operands into rd, and executing it with divisor zero fails with the
division-by-zero runtime error (the ZeroDivisionError that Python raises
out of the floor division in Div.eval, embedded as the typed error
divByZero). -/
theorem c5_div_eval (p : AProg) (rd rs1 rs2 : String) (v1 v2 : Int)
    (h1 : getVal p rs1 = .ok v1) (h2 : getVal p rs2 = .ok v2) :
    instEval (.div rd rs1 rs2) p =
      if v2 = 0 then .error .divByZero else .ok (setVal p rd (Int.fdiv v1 v2)) := by
  simp only [instEval, bind, Except.bind, h1, h2, pure, Except.pure]

theorem c5_div_eval_witness :
    instEval (.div "a" "b0" "b1") ⟨[], [("b0", 8), ("b1", 0)], [], 0⟩ = .error .divByZero ∧
    instEval (.div "a" "b0" "b1") ⟨[], [("b0", 8), ("b1", 3)], [], 0⟩ =
      .ok ⟨[], [("a", 2), ("b0", 8), ("b1", 3)], [], 0⟩ := by
  have hz := c5_div_eval ⟨[], [("b0", 8), ("b1", 0)], [], 0⟩ "a" "b0" "b1" 8 0 rfl rfl
  have hn := c5_div_eval ⟨[], [("b0", 8), ("b1", 3)], [], 0⟩ "a" "b0" "b1" 8 3 rfl rfl
  refine ⟨by simpa using hz, ?_⟩
  rw [hn, if_neg (by decide)]
  rfl

/-! ### Claim C10 -/

/-- C10: the fetch loop halts normally whenever the pc leaves the range
of instruction indices in either direction: get_inst returns None both
for pc at or past the end and for negative pc, and evaluation of such a
state ends without an error, returning the state unchanged. -/
theorem c10_out_of_range_halts (p : AProg)
    (h : p.pc < 0 ∨ (p.insts.length : Int) ≤ p.pc) :
    getInst p = none ∧ ∀ n, evalN n p = .ok p := by
  have hg : getInst p = none := by
    unfold getInst
    rw [if_neg]
    omega
  refine ⟨hg, fun n => ?_⟩
  cases n <;> simp [evalN, hg]

theorem c10_out_of_range_halts_witness :
    getInst ⟨[], [("sp", 0), ("x0", 0)], [.beq "x0" "x0" (some (-5))], -5⟩ = none ∧
    evalN 7 ⟨[], [("sp", 0), ("x0", 0)], [.beq "x0" "x0" (some (-5))], -5⟩ =
      .ok ⟨[], [("sp", 0), ("x0", 0)], [.beq "x0" "x0" (some (-5))], -5⟩ := by
  have := c10_out_of_range_halts ⟨[], [("sp", 0), ("x0", 0)], [.beq "x0" "x0" (some (-5))], -5⟩
    (Or.inl (by decide))
  exact ⟨this.1, this.2 7⟩

/-! ### Claim C6 -/

/-- C6 counterexample: the claim says every negative effective address
fails with a memory-bounds error and never silently writes a cell; but
with memory size 1, a sw whose effective address is -1 succeeds and
silently writes cell 0 (Python negative list indexing wraps around). -/
theorem c6_counterexample :
    evalN 1 (initProgram 1 [("a", -1), ("b", 7)] [.sw "a" 0 "b"]) =
      .ok ⟨[7], [("sp", 1), ("x0", 0), ("a", -1), ("b", 7)], [.sw "a" 0 "b"], 1⟩ ∧
    evalN 1 (initProgram 1 [("a", -1), ("b", 7)] [.sw "a" 0 "b"]) ≠
      .error .memOutOfBounds := by
  constructor
  · rfl
  · intro h
    rw [show evalN 1 (initProgram 1 [("a", -1), ("b", 7)] [.sw "a" 0 "b"]) =
        .ok ⟨[7], [("sp", 1), ("x0", 0), ("a", -1), ("b", 7)], [.sw "a" 0 "b"], 1⟩ from rfl] at h
    exact Except.noConfusion h

/-- C6 amended: an effective address at or past the memory length, or
below minus the memory length, fails with the memory-bounds error (for
both sw and lw); an address in the interval from minus the length up to
but excluding 0 does not fail for either instruction: sw silently writes
and lw silently reads the cell at address plus length, the Python
wrap-around; an address in range accesses its own cell.  The lw parts
need no assumption about reg, which lw only writes; the sw parts assume
the stored register reads as v. -/
theorem c6_amended_mem_semantics (p : AProg) (rs1 : String) (off : Int) (reg : String)
    (base : Int) (h1 : getVal p rs1 = .ok base) :
    (((p.mem.length : Int) ≤ base + off ∨ base + off < -(p.mem.length : Int)) →
      instEval (.lw rs1 off reg) p = .error .memOutOfBounds ∧
      ∀ v : Int, getVal p reg = .ok v →
        instEval (.sw rs1 off reg) p = .error .memOutOfBounds) ∧
    (-(p.mem.length : Int) ≤ base + off → base + off < 0 →
      instEval (.lw rs1 off reg) p =
        .ok (setVal p reg (p.mem.getD (base + off + p.mem.length).toNat 0)) ∧
      ∀ v : Int, getVal p reg = .ok v →
        instEval (.sw rs1 off reg) p =
          .ok { p with mem := p.mem.set (base + off + p.mem.length).toNat v }) ∧
    (0 ≤ base + off → base + off < (p.mem.length : Int) →
      instEval (.lw rs1 off reg) p =
        .ok (setVal p reg (p.mem.getD (base + off).toNat 0)) ∧
      ∀ v : Int, getVal p reg = .ok v →
        instEval (.sw rs1 off reg) p =
          .ok { p with mem := p.mem.set (base + off).toNat v }) := by
  refine ⟨fun h => ⟨?_, fun v hv => ?_⟩, fun hge hlt => ⟨?_, fun v hv => ?_⟩,
    fun hge hlt => ⟨?_, fun v hv => ?_⟩⟩
  · simp only [instEval, bind, Except.bind, h1, getMem]
    rw [if_neg (by omega), if_neg (by omega)]
  · simp only [instEval, bind, Except.bind, hv, h1, setMem]
    rw [if_neg (by omega), if_neg (by omega)]
  · simp only [instEval, bind, Except.bind, h1, getMem]
    rw [if_neg (by omega), if_pos (by constructor <;> omega)]
    rfl
  · simp only [instEval, bind, Except.bind, hv, h1, setMem]
    rw [if_neg (by omega), if_pos (by constructor <;> omega)]
  · simp only [instEval, bind, Except.bind, h1, getMem]
    rw [if_pos (by constructor <;> omega)]
    rfl
  · simp only [instEval, bind, Except.bind, hv, h1, setMem]
    rw [if_pos (by constructor <;> omega)]

theorem c6_amended_mem_semantics_witness :
    instEval (.lw "a" 0 "b") ⟨[9], [("a", -1), ("b", 7)], [], 0⟩ =
      .ok ⟨[9], [("b", 9), ("a", -1), ("b", 7)], [], 0⟩ ∧
    instEval (.sw "a" 0 "b") ⟨[0], [("a", -1), ("b", 7)], [], 0⟩ =
      .ok ⟨[7], [("a", -1), ("b", 7)], [], 0⟩ ∧
    instEval (.sw "a" 0 "b") ⟨[0], [("a", 5), ("b", 7)], [], 0⟩ = .error .memOutOfBounds := by
  have h := c6_amended_mem_semantics ⟨[9], [("a", -1), ("b", 7)], [], 0⟩ "a" 0 "b" (-1) rfl
  have h2 := c6_amended_mem_semantics ⟨[0], [("a", -1), ("b", 7)], [], 0⟩ "a" 0 "b" (-1) rfl
  have h3 := c6_amended_mem_semantics ⟨[0], [("a", 5), ("b", 7)], [], 0⟩ "a" 0 "b" 5 rfl
  refine ⟨?_, ?_, ?_⟩
  · have := (h.2.1 (by decide) (by decide)).1
    simpa [setVal] using this
  · have := (h2.2.1 (by decide) (by decide)).2 7 rfl
    simpa using this
  · exact (h3.1 (Or.inl (by decide))).2 7 rfl

/-! ### Claim C7 -/

/-- C7: the claim (and the rule table of the specification) says visit_fn
returns the constraints of the body plus the parameter constraint and an arrow
constraint against the expected type.  Evaluating the Vpl9 generator at
the input of the doctest of the method itself, Fn('v', Var('v')) against the
fresh placeholder TV_1, shows what the code actually returns: only the
body constraint and the pair of the body placeholder with the expected
type.  No parameter constraint is produced (TV_2, the fresh variable
created for the parameter, is never used), and no arrow term exists
anywhere in the constraint language of this stage. -/
theorem c7_fn_constraints_counterexample :
    ctrGen (.fn "v" (.var "v")) (.id "TV_1") 1 =
      ({(.id "v", .id "TV_3"), (.id "TV_3", .id "TV_1")}, 3) ∧
    (TyE.id "v", TyE.id "TV_2") ∉ (ctrGen (.fn "v" (.var "v")) (.id "TV_1") 1).1 := by
  constructor
  · decide
  · decide

/-! ### Claim C8 -/

/-- C8: the claim says the annotated let binding is accepted and the
pipeline prints 42.  In the code, the lexer does produce the COL and INT
tokens, but _parse_let expects the assignment arrow immediately after the
bound variable, so the pipeline exits with the parse error Expected ASN
on the annotated program; the same program without the annotation runs
through the whole pipeline and yields 42. -/
theorem c8_annotated_let_rejected :
    runPipeline "let v : int <- 21 in v + v end" =
      .error (.parse (.parseError "Expected ASN")) ∧
    runPipeline "let v <- 21 in v + v end" = .ok 42 := by
  constructor
  · rfl
  · rfl

/-! ### Claim C9 -/

theorem padvance_tokens (s : ParserSt) : (padvance s).tokens = s.tokens := by
  unfold padvance
  split <;> rfl

theorem padvance_lt (s : ParserSt) (h : s.idx < s.tokens.length) :
    (padvance s).idx < (padvance s).tokens.length := by
  unfold padvance
  split
  · rename_i hc
    simp only
    omega
  · exact h

theorem advanceN_inv (n : Nat) (s : ParserSt) (h : s.idx < s.tokens.length) :
    (advanceN n s).idx < (advanceN n s).tokens.length := by
  induction n generalizing s with
  | zero => exact h
  | succ n ih => exact ih _ (padvance_lt s h)

theorem advanceN_tokens (n : Nat) (s : ParserSt) : (advanceN n s).tokens = s.tokens := by
  induction n generalizing s with
  | zero => rfl
  | succ n ih => rw [advanceN, ih, padvance_tokens]

/-- C9: the parser never indexes past its token buffer: the constructor
appends one EOF sentinel, _advance (the only operation that moves the
cursor) never moves it past that sentinel, and therefore _current always
returns a token, after any number of advances from the initial state. -/
theorem c9_cursor_in_bounds (ts : List Token) (n : Nat) :
    (advanceN n (parserInit ts)).tokens = ts ++ [⟨"", .EOF⟩] ∧
    (advanceN n (parserInit ts)).idx < (advanceN n (parserInit ts)).tokens.length ∧
    ∃ t, pcur (advanceN n (parserInit ts)) = .ok t := by
  have h0 : (parserInit ts).idx < (parserInit ts).tokens.length := by
    simp [parserInit]
  have h := advanceN_inv n _ h0
  refine ⟨advanceN_tokens n _, h, ?_⟩
  unfold pcur
  rw [List.get?_eq_get h]
  exact ⟨_, rfl⟩

/-! ### Claim C4 -/

/-- C4: for all integer operand values, the instruction sequence the
generator emits for Eql a b (sub, slti with 1, slti with 0, xor) runs to
completion and leaves 1 in the result register exactly when the operands
are equal and 0 otherwise. -/
theorem c4_eql_sequence (a b : Int) (r : String) (p : AProg) (c : Nat)
    (h : genExp (.eql (.var "va") (.var "vb")) (initProgram 0 [("va", a), ("vb", b)] []) 0 =
      .ok (r, p, c)) :
    runAndRead 4 p r = .ok (if a = b then 1 else 0) := by
  have hg : genExp (.eql (.var "va") (.var "vb")) (initProgram 0 [("va", a), ("vb", b)] []) 0 =
      .ok ("tmp4",
        ⟨[], [("sp", 0), ("x0", 0), ("va", a), ("vb", b)],
         [.sub "tmp1" "va" "vb", .slti "tmp2" "tmp1" 1, .slti "tmp3" "tmp1" 0,
          .xor "tmp4" "tmp2" "tmp3"], 0⟩, 4) := rfl
  rw [hg] at h
  injection h with h'
  obtain ⟨h1, h2⟩ := Prod.mk.injEq .. |>.mp h'
  obtain ⟨h3, h4⟩ := Prod.mk.injEq .. |>.mp h2
  subst h1
  subst h3
  have hrun : runAndRead 4
      (⟨[], [("sp", 0), ("x0", 0), ("va", a), ("vb", b)],
        [.sub "tmp1" "va" "vb", .slti "tmp2" "tmp1" 1, .slti "tmp3" "tmp1" 0,
         .xor "tmp4" "tmp2" "tmp3"], 0⟩ : AProg) "tmp4" =
      .ok (Int.xor (if a - b < 1 then 1 else 0) (if a - b < 0 then 1 else 0)) := rfl
  rw [hrun]
  congr 1
  rcases lt_trichotomy a b with hab | hab | hab
  · rw [if_pos (by omega), if_pos (by omega), if_neg (by omega)]
    decide
  · rw [if_pos (by omega), if_neg (by omega), if_pos hab]
    decide
  · rw [if_neg (by omega), if_neg (by omega), if_neg (by omega)]
    decide

theorem c4_eql_sequence_witness :
    runAndRead 4
      (⟨[], [("sp", 0), ("x0", 0), ("va", 3), ("vb", 3)],
        [.sub "tmp1" "va" "vb", .slti "tmp2" "tmp1" 1, .slti "tmp3" "tmp1" 0,
         .xor "tmp4" "tmp2" "tmp3"], 0⟩ : AProg) "tmp4" = .ok 1 := by
  have := c4_eql_sequence 3 3 "tmp4"
    (⟨[], [("sp", 0), ("x0", 0), ("va", 3), ("vb", 3)],
      [.sub "tmp1" "va" "vb", .slti "tmp2" "tmp1" 1, .slti "tmp3" "tmp1" 0,
       .xor "tmp4" "tmp2" "tmp3"], 0⟩ : AProg) 4 rfl
  simpa using this

/-! ### Claim C3: structure of generated code -/

theorem exceptBind_ok {α β ε : Type} {m : Except ε α} {f : α → Except ε β} {b : β}
    (h : (m >>= f) = .ok b) : ∃ a, m = .ok a ∧ f a = .ok b := by
  cases m with
  | error e => simp [bind, Except.bind] at h
  | ok a => exact ⟨a, rfl, by simpa [bind, Except.bind] using h⟩

theorem extends_refl (p : AProg) : Extends p p :=
  ⟨⟨[], by simp⟩, rfl, rfl, rfl⟩

theorem extends_trans {p q r : AProg} (h1 : Extends p q) (h2 : Extends q r) : Extends p r := by
  obtain ⟨⟨t1, ht1⟩, e1, m1, c1⟩ := h1
  obtain ⟨⟨t2, ht2⟩, e2, m2, c2⟩ := h2
  exact ⟨⟨t1 ++ t2, by rw [ht2, ht1, List.append_assoc]⟩, by rw [e2, e1], by rw [m2, m1],
    by rw [c2, c1]⟩

theorem extends_addInst (p : AProg) (i : AInst) : Extends p (addInst p i) :=
  ⟨⟨[i], rfl⟩, rfl, rfl, rfl⟩

theorem extends_len {p q : AProg} (h : Extends p q) : p.insts.length ≤ q.insts.length := by
  obtain ⟨⟨t, ht⟩, -⟩ := h
  simp [ht]

theorem extends_patchAt {p q : AProg} {idx : Nat} {t : Int} (h : Extends p q)
    (hidx : p.insts.length ≤ idx) : Extends p (patchAt q idx t) := by
  obtain ⟨⟨tail, htail⟩, he, hm, hc⟩ := h
  unfold patchAt
  cases hg : q.insts.get? idx with
  | none => exact ⟨⟨tail, htail⟩, he, hm, hc⟩
  | some i =>
    refine ⟨⟨tail.set (idx - p.insts.length) (setTarget i t), ?_⟩, he, hm, hc⟩
    simp only
    rw [htail, List.set_append_right _ _ hidx]

theorem genExp_extends (e : Expr) : ∀ (p : AProg) (c : Nat) (r : String) (q : AProg) (c' : Nat),
    genExp e p c = .ok (r, q, c') → Extends p q := by
  induction e with
  | num n =>
    intro p c r q c' h
    simp only [genExp, freshVar] at h
    injection h with h
    obtain ⟨-, h2⟩ := Prod.mk.injEq .. |>.mp h
    obtain ⟨h3, -⟩ := Prod.mk.injEq .. |>.mp h2
    exact h3 ▸ extends_addInst p _
  | bln b =>
    intro p c r q c' h
    simp only [genExp, freshVar] at h
    injection h with h
    obtain ⟨-, h2⟩ := Prod.mk.injEq .. |>.mp h
    obtain ⟨h3, -⟩ := Prod.mk.injEq .. |>.mp h2
    exact h3 ▸ extends_addInst p _
  | var x =>
    intro p c r q c' h
    simp only [genExp] at h
    injection h with h
    obtain ⟨-, h2⟩ := Prod.mk.injEq .. |>.mp h
    obtain ⟨h3, -⟩ := Prod.mk.injEq .. |>.mp h2
    exact h3 ▸ extends_refl p
  | eql l r ihl ihr =>
    intro p c rr q c' h
    simp only [genExp, freshVar] at h
    obtain ⟨⟨lv, p1, c1⟩, hl, h⟩ := exceptBind_ok h
    obtain ⟨⟨rv, p2, c2⟩, hr, h⟩ := exceptBind_ok h
    injection h with h
    obtain ⟨-, h2⟩ := Prod.mk.injEq .. |>.mp h
    obtain ⟨h3, -⟩ := Prod.mk.injEq .. |>.mp h2
    subst h3
    exact extends_trans (ihl _ _ _ _ _ hl) (extends_trans (ihr _ _ _ _ _ hr)
      (extends_trans (extends_addInst _ _) (extends_trans (extends_addInst _ _)
        (extends_trans (extends_addInst _ _) (extends_addInst _ _)))))
  | and l r ihl ihr =>
    intro p c rr q c' h
    simp only [genExp, freshVar] at h
    obtain ⟨⟨lv, p1, c1⟩, hl, h⟩ := exceptBind_ok h
    obtain ⟨⟨rv, p3, c3⟩, hr, h⟩ := exceptBind_ok h
    injection h with h
    obtain ⟨-, h2⟩ := Prod.mk.injEq .. |>.mp h
    obtain ⟨h3, -⟩ := Prod.mk.injEq .. |>.mp h2
    subst h3
    have e1 : Extends p p1 := ihl _ _ _ _ _ hl
    have e2 : Extends p p3 :=
      extends_trans (extends_trans e1 (extends_addInst _ _)) (ihr _ _ _ _ _ hr)
    exact extends_patchAt
      (extends_trans
        (extends_patchAt
          (extends_trans (extends_trans e2 (extends_addInst _ _)) (extends_addInst _ _))
          (extends_len e1))
        (extends_addInst _ _))
      (extends_len (extends_trans e2 (extends_addInst _ _)))
  | or l r ihl ihr =>
    intro p c rr q c' h
    simp only [genExp, freshVar] at h
    obtain ⟨⟨lv, p1, c1⟩, hl, h⟩ := exceptBind_ok h
    obtain ⟨⟨rv, p6, c6⟩, hr, h⟩ := exceptBind_ok h
    injection h with h
    obtain ⟨-, h2⟩ := Prod.mk.injEq .. |>.mp h
    obtain ⟨h3, -⟩ := Prod.mk.injEq .. |>.mp h2
    subst h3
    have e1 : Extends p p1 := ihl _ _ _ _ _ hl
    exact extends_patchAt
      (extends_trans
        (extends_trans
          (extends_patchAt
            (extends_trans
              (extends_trans (extends_trans e1 (extends_addInst _ _)) (extends_addInst _ _))
              (extends_addInst _ _))
            (extends_len e1))
          (ihr _ _ _ _ _ hr))
        (extends_addInst _ _))
      (extends_len (extends_trans (extends_trans e1 (extends_addInst _ _))
        (extends_addInst _ _)))
  | add l r ihl ihr =>
    intro p c rr q c' h
    simp only [genExp, freshVar] at h
    obtain ⟨⟨lv, p1, c1⟩, hl, h⟩ := exceptBind_ok h
    obtain ⟨⟨rv, p2, c2⟩, hr, h⟩ := exceptBind_ok h
    injection h with h
    obtain ⟨-, h2⟩ := Prod.mk.injEq .. |>.mp h
    obtain ⟨h3, -⟩ := Prod.mk.injEq .. |>.mp h2
    subst h3
    exact extends_trans (ihl _ _ _ _ _ hl)
      (extends_trans (ihr _ _ _ _ _ hr) (extends_addInst _ _))
  | sub l r ihl ihr =>
    intro p c rr q c' h
    simp only [genExp, freshVar] at h
    obtain ⟨⟨lv, p1, c1⟩, hl, h⟩ := exceptBind_ok h
    obtain ⟨⟨rv, p2, c2⟩, hr, h⟩ := exceptBind_ok h
    injection h with h
    obtain ⟨-, h2⟩ := Prod.mk.injEq .. |>.mp h
    obtain ⟨h3, -⟩ := Prod.mk.injEq .. |>.mp h2
    subst h3
    exact extends_trans (ihl _ _ _ _ _ hl)
      (extends_trans (ihr _ _ _ _ _ hr) (extends_addInst _ _))
  | mul l r ihl ihr =>
    intro p c rr q c' h
    simp only [genExp, freshVar] at h
    obtain ⟨⟨lv, p1, c1⟩, hl, h⟩ := exceptBind_ok h
    obtain ⟨⟨rv, p2, c2⟩, hr, h⟩ := exceptBind_ok h
    injection h with h
    obtain ⟨-, h2⟩ := Prod.mk.injEq .. |>.mp h
    obtain ⟨h3, -⟩ := Prod.mk.injEq .. |>.mp h2
    subst h3
    exact extends_trans (ihl _ _ _ _ _ hl)
      (extends_trans (ihr _ _ _ _ _ hr) (extends_addInst _ _))
  | div l r ihl ihr =>
    intro p c rr q c' h
    simp only [genExp, freshVar] at h
    obtain ⟨⟨lv, p1, c1⟩, hl, h⟩ := exceptBind_ok h
    obtain ⟨⟨rv, p2, c2⟩, hr, h⟩ := exceptBind_ok h
    injection h with h
    obtain ⟨-, h2⟩ := Prod.mk.injEq .. |>.mp h
    obtain ⟨h3, -⟩ := Prod.mk.injEq .. |>.mp h2
    subst h3
    exact extends_trans (ihl _ _ _ _ _ hl)
      (extends_trans (ihr _ _ _ _ _ hr) (extends_addInst _ _))
  | leq l r ihl ihr =>
    intro p c rr q c' h
    simp only [genExp, freshVar] at h
    obtain ⟨⟨lv, p1, c1⟩, hl, h⟩ := exceptBind_ok h
    obtain ⟨⟨rv, p2, c2⟩, hr, h⟩ := exceptBind_ok h
    injection h with h
    obtain ⟨-, h2⟩ := Prod.mk.injEq .. |>.mp h
    obtain ⟨h3, -⟩ := Prod.mk.injEq .. |>.mp h2
    subst h3
    exact extends_trans (ihl _ _ _ _ _ hl)
      (extends_trans (ihr _ _ _ _ _ hr)
        (extends_trans (extends_addInst _ _) (extends_addInst _ _)))
  | lth l r ihl ihr =>
    intro p c rr q c' h
    simp only [genExp, freshVar] at h
    obtain ⟨⟨lv, p1, c1⟩, hl, h⟩ := exceptBind_ok h
    obtain ⟨⟨rv, p2, c2⟩, hr, h⟩ := exceptBind_ok h
    injection h with h
    obtain ⟨-, h2⟩ := Prod.mk.injEq .. |>.mp h
    obtain ⟨h3, -⟩ := Prod.mk.injEq .. |>.mp h2
    subst h3
    exact extends_trans (ihl _ _ _ _ _ hl)
      (extends_trans (ihr _ _ _ _ _ hr) (extends_addInst _ _))
  | neg e ih =>
    intro p c rr q c' h
    simp only [genExp, freshVar] at h
    obtain ⟨⟨ev, p1, c1⟩, he, h⟩ := exceptBind_ok h
    injection h with h
    obtain ⟨-, h2⟩ := Prod.mk.injEq .. |>.mp h
    obtain ⟨h3, -⟩ := Prod.mk.injEq .. |>.mp h2
    subst h3
    exact extends_trans (ih _ _ _ _ _ he) (extends_addInst _ _)
  | not e ih =>
    intro p c rr q c' h
    simp only [genExp, freshVar] at h
    obtain ⟨⟨ev, p1, c1⟩, he, h⟩ := exceptBind_ok h
    injection h with h
    obtain ⟨-, h2⟩ := Prod.mk.injEq .. |>.mp h
    obtain ⟨h3, -⟩ := Prod.mk.injEq .. |>.mp h2
    subst h3
    exact extends_trans (ih _ _ _ _ _ he)
      (extends_trans (extends_addInst _ _)
        (extends_trans (extends_addInst _ _) (extends_addInst _ _)))
  | letE x d b ihd ihb =>
    intro p c rr q c' h
    simp only [genExp] at h
    obtain ⟨⟨dv, p1, c1⟩, hd, h⟩ := exceptBind_ok h
    have hbase : Extends p (addInst p1 (.add x dv "x0")) :=
      extends_trans (ihd _ _ _ _ _ hd) (extends_addInst _ _)
    cases d with
    | fn f bb => cases h
    | num n => exact extends_trans hbase (ihb _ _ _ _ _ h)
    | bln bb => exact extends_trans hbase (ihb _ _ _ _ _ h)
    | var v => exact extends_trans hbase (ihb _ _ _ _ _ h)
    | eql a bb => exact extends_trans hbase (ihb _ _ _ _ _ h)
    | and a bb => exact extends_trans hbase (ihb _ _ _ _ _ h)
    | or a bb => exact extends_trans hbase (ihb _ _ _ _ _ h)
    | add a bb => exact extends_trans hbase (ihb _ _ _ _ _ h)
    | sub a bb => exact extends_trans hbase (ihb _ _ _ _ _ h)
    | mul a bb => exact extends_trans hbase (ihb _ _ _ _ _ h)
    | div a bb => exact extends_trans hbase (ihb _ _ _ _ _ h)
    | leq a bb => exact extends_trans hbase (ihb _ _ _ _ _ h)
    | lth a bb => exact extends_trans hbase (ihb _ _ _ _ _ h)
    | neg a => exact extends_trans hbase (ihb _ _ _ _ _ h)
    | not a => exact extends_trans hbase (ihb _ _ _ _ _ h)
    | letE y dd bbb => exact extends_trans hbase (ihb _ _ _ _ _ h)
    | ite a bb cc => exact extends_trans hbase (ihb _ _ _ _ _ h)
    | app f aa => exact extends_trans hbase (ihb _ _ _ _ _ h)
  | ite cnd e0 e1 ihc ih0 ih1 =>
    intro p c rr q c' h
    simp only [genExp, freshVar] at h
    obtain ⟨⟨cv, p1, c1⟩, hc, h⟩ := exceptBind_ok h
    obtain ⟨⟨v0, p3, c3⟩, h0, h⟩ := exceptBind_ok h
    obtain ⟨⟨v1, p7, c7⟩, h1, h⟩ := exceptBind_ok h
    injection h with h
    obtain ⟨-, h2⟩ := Prod.mk.injEq .. |>.mp h
    obtain ⟨h3, -⟩ := Prod.mk.injEq .. |>.mp h2
    subst h3
    have ec : Extends p p1 := ihc _ _ _ _ _ hc
    have e3 : Extends p p3 :=
      extends_trans (extends_trans ec (extends_addInst _ _)) (ih0 _ _ _ _ _ h0)
    exact extends_patchAt
      (extends_trans
        (extends_trans
          (extends_patchAt
            (extends_trans (extends_trans e3 (extends_addInst _ _)) (extends_addInst _ _))
            (extends_len ec))
          (ih1 _ _ _ _ _ h1))
        (extends_addInst _ _))
      (extends_len (extends_trans e3 (extends_addInst _ _)))
  | fn f b ih =>
    intro p c rr q c' h
    simp only [genExp] at h
    cases h
  | app f a ihf iha =>
    intro p c rr q c' h
    simp only [genExp] at h
    cases h

theorem getInst_at (p : AProg) (n : Nat) (i : AInst) (hpc : p.pc = (n : Int))
    (hn : p.insts.get? n = some i) :
    getInst p = some (i, { p with pc := (n : Int) + 1 }) := by
  obtain ⟨hlen, -⟩ := List.get?_eq_some.mp hn
  unfold getInst
  rw [hpc, if_pos ⟨Int.natCast_nonneg n, by exact_mod_cast hlen⟩]
  rw [Int.toNat_natCast, hn]
  rfl

theorem tmp_append_ne_x0 (s : String) : ("tmp" ++ s) ≠ "x0" := by
  intro h
  have hd := congrArg String.data h
  rw [String.data_append] at hd
  simp at hd

theorem patchAt_env (p : AProg) (idx : Nat) (t : Int) : (patchAt p idx t).env = p.env := by
  unfold patchAt
  split <;> rfl

theorem patchAt_mem (p : AProg) (idx : Nat) (t : Int) : (patchAt p idx t).mem = p.mem := by
  unfold patchAt
  split <;> rfl

theorem patchAt_pc (p : AProg) (idx : Nat) (t : Int) : (patchAt p idx t).pc = p.pc := by
  unfold patchAt
  split <;> rfl

theorem patchAt_insts_of_get (p : AProg) (idx : Nat) (t : Int) (i : AInst)
    (h : p.insts.get? idx = some i) :
    (patchAt p idx t).insts = p.insts.set idx (setTarget i t) := by
  unfold patchAt
  rw [h]

theorem patchAt_mk_one (mem : List Int) (env : List (String × Int)) (a b : AInst)
    (l : List AInst) (pc : Int) (t : Int) :
    patchAt ⟨mem, env, a :: b :: l, pc⟩ 1 t = ⟨mem, env, a :: setTarget b t :: l, pc⟩ := by
  unfold patchAt
  rfl

theorem patchAt_mk_two_append (mem : List Int) (env : List (String × Int)) (a b : AInst)
    (l : List AInst) (w x y : AInst) (pc : Int) (t : Int) :
    patchAt ⟨mem, env, a :: b :: (l ++ [w, x, y]), pc⟩ (l.length + 3) t =
      ⟨mem, env, a :: b :: (l ++ [w, setTarget x t, y]), pc⟩ := by
  unfold patchAt
  have hsplit : a :: b :: (l ++ [w, x, y]) = (a :: b :: l) ++ [w, x, y] := by simp
  have hg : (a :: b :: (l ++ [w, x, y])).get? (l.length + 3) = some x := by
    rw [hsplit, List.get?_append_right (by simp)]
    have : l.length + 3 - (a :: b :: l).length = 1 := by simp
    rw [this]
    rfl
  rw [hg]
  dsimp only
  have hset : (a :: b :: (l ++ [w, x, y])).set (l.length + 3) (setTarget x t) =
      a :: b :: (l ++ [w, setTarget x t, y]) := by
    rw [hsplit, List.set_append_right _ _ (by simp)]
    have : l.length + 3 - (a :: b :: l).length = 1 := by simp
    rw [this]
    simp
  rw [hset]

theorem genExp_and_false (e : Expr) (ms : Nat) (env : List (String × Int))
    (dest : String) (p : AProg) (c' : Nat)
    (h : genExp (.and (.bln false) e) (initProgram ms env []) 0 = .ok (dest, p, c')) :
    ∃ (rv : String) (tail : List AInst) (c3 : Nat),
      dest = "tmp" ++ natStr (c3 + 1) ∧
      p.insts = .addi ("tmp" ++ natStr 1) "x0" 0 ::
        .beq ("tmp" ++ natStr 1) "x0" (some ((tail.length + 4 : Nat) : Int)) ::
        (tail ++ [.add dest rv "x0", .jal "x0" (some ((tail.length + 5 : Nat) : Int)),
          .addi dest "x0" 0]) ∧
      p.env = ("sp", (ms : Int)) :: ("x0", 0) :: env ∧
      p.mem = List.replicate ms 0 ∧
      p.pc = 0 := by
  simp only [genExp, freshVar, Nat.zero_add] at h
  obtain ⟨x1, hx1, h⟩ := exceptBind_ok h
  injection hx1 with hx1
  subst hx1
  obtain ⟨⟨rv, p3, c3⟩, hgen, h⟩ := exceptBind_ok h
  injection h with h
  obtain ⟨hdest, h2⟩ := Prod.mk.injEq .. |>.mp h
  obtain ⟨hp, hc⟩ := Prod.mk.injEq .. |>.mp h2
  subst hdest
  subst hp
  obtain ⟨⟨tail, htail⟩, henv, hmem, hpc⟩ := genExp_extends e _ _ _ _ _ hgen
  dsimp only at htail henv hmem hpc ⊢
  simp only [addInst, initProgram, List.nil_append, List.cons_append, List.append_assoc,
    List.singleton_append, Bool.false_eq_true, if_false] at htail henv hmem hpc ⊢
  refine ⟨rv, tail, c3, rfl, ?_, ?_, ?_, ?_⟩
  · simp only [htail, List.cons_append, List.nil_append, List.append_assoc,
      List.length_cons, List.length_nil, List.length_append, List.singleton_append,
      List.length_singleton, Nat.zero_add, Nat.add_zero, Nat.add_assoc, Nat.reduceAdd,
      patchAt_mk_one, setTarget, patchAt_mk_two_append]
  · simp [patchAt_env, henv]
  · simp [patchAt_mem, hmem]
  · simp [patchAt_pc, hpc]

theorem run_and_false_block (q : AProg) (t1 dest rv : String) (tail : List AInst)
    (ht1 : t1 ≠ "x0") (hdest : dest ≠ "x0") (hx0 : envGet q.env "x0" = some 0)
    (hinsts : q.insts = .addi t1 "x0" 0 ::
      .beq t1 "x0" (some ((tail.length + 4 : Nat) : Int)) ::
      (tail ++ [.add dest rv "x0", .jal "x0" (some ((tail.length + 5 : Nat) : Int)),
        .addi dest "x0" 0]))
    (hpc : q.pc = 0) :
    runAndRead 3 q dest = .ok 0 := by
  have hlen : q.insts.length = tail.length + 5 := by rw [hinsts]; simp
  have hf1 : getInst q = some (.addi t1 "x0" 0, { q with pc := ((0 : Nat) : Int) + 1 }) := by
    apply getInst_at
    · rw [hpc]; rfl
    · rw [hinsts]; rfl
  have he1 : instEval (.addi t1 "x0" 0) { q with pc := ((0 : Nat) : Int) + 1 } =
      .ok { q with env := (t1, (0 : Int)) :: q.env, pc := ((0 : Nat) : Int) + 1 } := by
    simp [instEval, getVal, setVal, envGet, ht1, hx0]
  have hf2 : getInst { q with env := (t1, (0 : Int)) :: q.env, pc := ((0 : Nat) : Int) + 1 } =
      some (.beq t1 "x0" (some ((tail.length + 4 : Nat) : Int)),
        { q with env := (t1, (0 : Int)) :: q.env, pc := ((1 : Nat) : Int) + 1 }) := by
    have := getInst_at { q with env := (t1, (0 : Int)) :: q.env, pc := ((0 : Nat) : Int) + 1 } 1
      (.beq t1 "x0" (some ((tail.length + 4 : Nat) : Int))) (by dsimp only; norm_num)
      (by dsimp only; rw [hinsts]; rfl)
    simpa using this
  have he2 : instEval (.beq t1 "x0" (some ((tail.length + 4 : Nat) : Int)))
      { q with env := (t1, (0 : Int)) :: q.env, pc := ((1 : Nat) : Int) + 1 } =
      .ok { q with env := (t1, (0 : Int)) :: q.env, pc := ((tail.length + 4 : Nat) : Int) } := by
    simp [instEval, getVal, envGet, bind, Except.bind, pure, Except.pure, ht1, hx0]
  have hget3 : q.insts.get? (tail.length + 4) = some (.addi dest "x0" 0) := by
    rw [hinsts]
    rw [show (AInst.addi t1 "x0" 0 ::
        AInst.beq t1 "x0" (some ((tail.length + 4 : Nat) : Int)) ::
        (tail ++ [AInst.add dest rv "x0", AInst.jal "x0" (some ((tail.length + 5 : Nat) : Int)),
          AInst.addi dest "x0" 0])) =
      (AInst.addi t1 "x0" 0 ::
        AInst.beq t1 "x0" (some ((tail.length + 4 : Nat) : Int)) :: tail) ++
        [AInst.add dest rv "x0", AInst.jal "x0" (some ((tail.length + 5 : Nat) : Int)),
          AInst.addi dest "x0" 0] from by simp]
    rw [List.get?_append_right (by simp)]
    have harith : tail.length + 4 - (AInst.addi t1 "x0" 0 ::
        AInst.beq t1 "x0" (some ((tail.length + 4 : Nat) : Int)) :: tail).length = 2 := by
      simp
    rw [harith]
    rfl
  have hf3 : getInst { q with env := (t1, (0 : Int)) :: q.env, pc := ((tail.length + 4 : Nat) : Int) } = some (.addi dest "x0" 0, { q with env := (t1, (0 : Int)) :: q.env, pc := ((tail.length + 4 : Nat) : Int) + 1 }) := by
    exact getInst_at _ (tail.length + 4) _ rfl hget3
  have he3 : instEval (.addi dest "x0" 0) { q with env := (t1, (0 : Int)) :: q.env, pc := ((tail.length + 4 : Nat) : Int) + 1 } = .ok { q with env := (dest, (0 : Int)) :: (t1, (0 : Int)) :: q.env, pc := ((tail.length + 4 : Nat) : Int) + 1 } := by
    simp [instEval, getVal, setVal, envGet, ht1, hdest, hx0]
  have hf4 : getInst { q with env := (dest, (0 : Int)) :: (t1, (0 : Int)) :: q.env, pc := ((tail.length + 4 : Nat) : Int) + 1 } = none := by
    unfold getInst
    rw [if_neg]
    dsimp only
    rw [hlen]
    push_cast
    omega
  have hev : evalN 3 q = .ok { q with env := (dest, (0 : Int)) :: (t1, (0 : Int)) :: q.env, pc := ((tail.length + 4 : Nat) : Int) + 1 } := by
    simp only [evalN, hf1, he1, hf2, he2, hf3, he3, hf4, bind, Except.bind]
  simp only [runAndRead, hev, bind, Except.bind]
  simp [getVal, envGet]

/-- C3: in the code generated for And a b, the instructions for the right
operand are not executed when the left operand evaluates to 0: the beq
emitted after the code of the left operand jumps past the block of the right operand,
namely to the instruction that writes 0 into the destination, and the
program halts three executed instructions later with the destination
holding 0, whatever the right operand is - even one whose code divides
by zero. -/
theorem c3_and_short_circuit (e : Expr) (ms : Nat) (env : List (String × Int))
    (dest : String) (p : AProg) (c' : Nat)
    (h : genExp (.and (.bln false) e) (initProgram ms env []) 0 = .ok (dest, p, c')) :
    runAndRead 3 p dest = .ok 0 := by
  obtain ⟨rv, tail, c3, hdest, hinsts, henv, hmem, hpc⟩ := genExp_and_false e ms env dest p c' h
  subst hdest
  apply run_and_false_block p ("tmp" ++ natStr 1) _ rv tail (tmp_append_ne_x0 _)
    (tmp_append_ne_x0 _) ?_ hinsts hpc
  rw [henv]
  simp [envGet]

theorem c3_and_short_circuit_witness :
    runAndRead 3
      (⟨[], [("sp", 0), ("x0", 0)],
        [.addi "tmp1" "x0" 0, .beq "tmp1" "x0" (some 7), .addi "tmp2" "x0" 3,
         .addi "tmp3" "x0" 0, .div "tmp4" "tmp2" "tmp3", .add "tmp5" "tmp4" "x0",
         .jal "x0" (some 8), .addi "tmp5" "x0" 0], 0⟩ : AProg) "tmp5" = .ok 0 ∧
    instEval (.div "tmp4" "tmp2" "tmp3")
      (⟨[], [("tmp3", 0), ("tmp2", 3), ("sp", 0), ("x0", 0)], [], 5⟩ : AProg) =
      .error .divByZero := by
  constructor
  · exact c3_and_short_circuit (.div (.num 3) (.num 0)) 0 [] "tmp5" _ 5 rfl
  · rfl

/-! ### Claim C2 -/

theorem append_underscore_inj : ∀ (l1 : List Char) {l2 r1 r2 : List Char},
    l1 ++ '_' :: r1 = l2 ++ '_' :: r2 → '_' ∉ r1 → '_' ∉ r2 → r1 = r2 := by
  intro l1
  induction l1 with
  | nil =>
    intro l2 r1 r2 h h1 h2
    cases l2 with
    | nil => exact (List.cons.injEq .. |>.mp h).2
    | cons c l2' =>
      obtain ⟨hc, hr⟩ := List.cons.injEq .. |>.mp h
      exact absurd (hr ▸ List.mem_append_right l2' (List.mem_cons_self '_' r2)) h1
  | cons c l1' ih =>
    intro l2 r1 r2 h h1 h2
    cases l2 with
    | nil =>
      obtain ⟨hc, hr⟩ := List.cons.injEq .. |>.mp h
      exact absurd (hr ▸ List.mem_append_right l1' (List.mem_cons_self '_' r1)) h2
    | cons d l2' =>
      obtain ⟨-, hr⟩ := List.cons.injEq .. |>.mp h
      exact ih hr h1 h2

theorem name_counter_inj {b1 b2 : String} {i j : Nat}
    (h : b1 ++ "_" ++ natStr i = b2 ++ "_" ++ natStr j) : i = j := by
  have hd := congrArg String.data h
  simp only [String.data_append, List.append_assoc] at hd
  have hd' : b1.data ++ '_' :: natDigitsAux i i = b2.data ++ '_' :: natDigitsAux j j := by
    simpa [natStr, List.asString] using hd
  have := append_underscore_inj b1.data hd'
    (underscore_not_mem_natDigitsAux i i) (underscore_not_mem_natDigitsAux j j)
  have e1 := decDigits_natDigitsAux i i le_rfl
  have e2 := decDigits_natDigitsAux j j le_rfl
  rw [← e1, ← e2, this]

theorem combine_two {xs ys : List String} {c0 c1 c2 : Nat}
    (hx1 : ∀ s ∈ xs, ∃ b i, s = b ++ "_" ++ natStr i ∧ c0 ≤ i ∧ i < c1)
    (hx2 : xs.Nodup)
    (hy1 : ∀ s ∈ ys, ∃ b i, s = b ++ "_" ++ natStr i ∧ c1 ≤ i ∧ i < c2)
    (hy2 : ys.Nodup) (h01 : c0 ≤ c1) (h12 : c1 ≤ c2) :
    (∀ s ∈ xs ++ ys, ∃ b i, s = b ++ "_" ++ natStr i ∧ c0 ≤ i ∧ i < c2) ∧
    (xs ++ ys).Nodup := by
  constructor
  · intro s hs
    rcases List.mem_append.mp hs with hmem | hmem
    · obtain ⟨b, i, hb, hi0, hi1⟩ := hx1 s hmem
      exact ⟨b, i, hb, hi0, by omega⟩
    · obtain ⟨b, i, hb, hi0, hi1⟩ := hy1 s hmem
      exact ⟨b, i, hb, by omega, hi1⟩
  · rw [List.nodup_append]
    refine ⟨hx2, hy2, ?_⟩
    intro a ha ha'
    obtain ⟨b, i, hb, hi0, hi1⟩ := hx1 a ha
    obtain ⟨b', j, hb', hj0, hj1⟩ := hy1 a ha'
    have := name_counter_inj (hb ▸ hb' : b ++ "_" ++ natStr i = b' ++ "_" ++ natStr j)
    omega

theorem combine_bind {ys : List String} {base : String} {c1 c2 : Nat}
    (hy1 : ∀ s ∈ ys, ∃ b i, s = b ++ "_" ++ natStr i ∧ c1 + 1 ≤ i ∧ i < c2)
    (hy2 : ys.Nodup) (h12 : c1 + 1 ≤ c2) :
    (∀ s ∈ (base ++ "_" ++ natStr c1) :: ys,
      ∃ b i, s = b ++ "_" ++ natStr i ∧ c1 ≤ i ∧ i < c2) ∧
    ((base ++ "_" ++ natStr c1) :: ys).Nodup := by
  constructor
  · intro s hs
    rcases List.mem_cons.mp hs with rfl | hmem
    · exact ⟨base, c1, rfl, le_rfl, by omega⟩
    · obtain ⟨b, i, hb, hi0, hi1⟩ := hy1 s hmem
      exact ⟨b, i, hb, by omega, hi1⟩
  · rw [List.nodup_cons]
    refine ⟨?_, hy2⟩
    intro hmem
    obtain ⟨b, i, hb, hi0, hi1⟩ := hy1 _ hmem
    have := name_counter_inj hb
    omega

theorem rename_binders_spec (e : Expr) : ∀ (m : List (String × String)) (c : Nat),
    c ≤ (rename e m c).2 ∧
    (∀ s ∈ binders (rename e m c).1,
      ∃ b i, s = b ++ "_" ++ natStr i ∧ c ≤ i ∧ i < (rename e m c).2) ∧
    (binders (rename e m c).1).Nodup := by
  induction e with
  | var x =>
    intro m c
    refine ⟨le_rfl, ?_, ?_⟩ <;> cases hm : mapGet m x <;> simp [rename, binders, hm]
  | num n =>
    intro m c
    exact ⟨le_rfl, by simp [rename, binders], by simp [rename, binders]⟩
  | bln b =>
    intro m c
    exact ⟨le_rfl, by simp [rename, binders], by simp [rename, binders]⟩
  | eql l r ihl ihr =>
    intro m c
    rcases hL : rename l m c with ⟨l', c1⟩
    rcases hR : rename r m c1 with ⟨r', c2⟩
    have IHl := ihl m c
    rw [hL] at IHl
    have IHr := ihr m c1
    rw [hR] at IHr
    simp only [rename, hL, hR, binders]
    obtain ⟨k1, k2⟩ := combine_two IHl.2.1 IHl.2.2 IHr.2.1 IHr.2.2 IHl.1 IHr.1
    exact ⟨le_trans IHl.1 IHr.1, k1, k2⟩
  | and l r ihl ihr =>
    intro m c
    rcases hL : rename l m c with ⟨l', c1⟩
    rcases hR : rename r m c1 with ⟨r', c2⟩
    have IHl := ihl m c
    rw [hL] at IHl
    have IHr := ihr m c1
    rw [hR] at IHr
    simp only [rename, hL, hR, binders]
    obtain ⟨k1, k2⟩ := combine_two IHl.2.1 IHl.2.2 IHr.2.1 IHr.2.2 IHl.1 IHr.1
    exact ⟨le_trans IHl.1 IHr.1, k1, k2⟩
  | or l r ihl ihr =>
    intro m c
    rcases hL : rename l m c with ⟨l', c1⟩
    rcases hR : rename r m c1 with ⟨r', c2⟩
    have IHl := ihl m c
    rw [hL] at IHl
    have IHr := ihr m c1
    rw [hR] at IHr
    simp only [rename, hL, hR, binders]
    obtain ⟨k1, k2⟩ := combine_two IHl.2.1 IHl.2.2 IHr.2.1 IHr.2.2 IHl.1 IHr.1
    exact ⟨le_trans IHl.1 IHr.1, k1, k2⟩
  | add l r ihl ihr =>
    intro m c
    rcases hL : rename l m c with ⟨l', c1⟩
    rcases hR : rename r m c1 with ⟨r', c2⟩
    have IHl := ihl m c
    rw [hL] at IHl
    have IHr := ihr m c1
    rw [hR] at IHr
    simp only [rename, hL, hR, binders]
    obtain ⟨k1, k2⟩ := combine_two IHl.2.1 IHl.2.2 IHr.2.1 IHr.2.2 IHl.1 IHr.1
    exact ⟨le_trans IHl.1 IHr.1, k1, k2⟩
  | sub l r ihl ihr =>
    intro m c
    rcases hL : rename l m c with ⟨l', c1⟩
    rcases hR : rename r m c1 with ⟨r', c2⟩
    have IHl := ihl m c
    rw [hL] at IHl
    have IHr := ihr m c1
    rw [hR] at IHr
    simp only [rename, hL, hR, binders]
    obtain ⟨k1, k2⟩ := combine_two IHl.2.1 IHl.2.2 IHr.2.1 IHr.2.2 IHl.1 IHr.1
    exact ⟨le_trans IHl.1 IHr.1, k1, k2⟩
  | mul l r ihl ihr =>
    intro m c
    rcases hL : rename l m c with ⟨l', c1⟩
    rcases hR : rename r m c1 with ⟨r', c2⟩
    have IHl := ihl m c
    rw [hL] at IHl
    have IHr := ihr m c1
    rw [hR] at IHr
    simp only [rename, hL, hR, binders]
    obtain ⟨k1, k2⟩ := combine_two IHl.2.1 IHl.2.2 IHr.2.1 IHr.2.2 IHl.1 IHr.1
    exact ⟨le_trans IHl.1 IHr.1, k1, k2⟩
  | div l r ihl ihr =>
    intro m c
    rcases hL : rename l m c with ⟨l', c1⟩
    rcases hR : rename r m c1 with ⟨r', c2⟩
    have IHl := ihl m c
    rw [hL] at IHl
    have IHr := ihr m c1
    rw [hR] at IHr
    simp only [rename, hL, hR, binders]
    obtain ⟨k1, k2⟩ := combine_two IHl.2.1 IHl.2.2 IHr.2.1 IHr.2.2 IHl.1 IHr.1
    exact ⟨le_trans IHl.1 IHr.1, k1, k2⟩
  | leq l r ihl ihr =>
    intro m c
    rcases hL : rename l m c with ⟨l', c1⟩
    rcases hR : rename r m c1 with ⟨r', c2⟩
    have IHl := ihl m c
    rw [hL] at IHl
    have IHr := ihr m c1
    rw [hR] at IHr
    simp only [rename, hL, hR, binders]
    obtain ⟨k1, k2⟩ := combine_two IHl.2.1 IHl.2.2 IHr.2.1 IHr.2.2 IHl.1 IHr.1
    exact ⟨le_trans IHl.1 IHr.1, k1, k2⟩
  | lth l r ihl ihr =>
    intro m c
    rcases hL : rename l m c with ⟨l', c1⟩
    rcases hR : rename r m c1 with ⟨r', c2⟩
    have IHl := ihl m c
    rw [hL] at IHl
    have IHr := ihr m c1
    rw [hR] at IHr
    simp only [rename, hL, hR, binders]
    obtain ⟨k1, k2⟩ := combine_two IHl.2.1 IHl.2.2 IHr.2.1 IHr.2.2 IHl.1 IHr.1
    exact ⟨le_trans IHl.1 IHr.1, k1, k2⟩
  | neg a ih =>
    intro m c
    rcases hE : rename a m c with ⟨a', c1⟩
    have IH := ih m c
    rw [hE] at IH
    simp only [rename, hE, binders]
    exact IH
  | not a ih =>
    intro m c
    rcases hE : rename a m c with ⟨a', c1⟩
    have IH := ih m c
    rw [hE] at IH
    simp only [rename, hE, binders]
    exact IH
  | letE x d b ihd ihb =>
    intro m c
    rcases hD : rename d m c with ⟨d', c1⟩
    rcases hB : rename b ((x, x ++ "_" ++ natStr c1) :: m) (c1 + 1) with ⟨b', c3⟩
    have IHd := ihd m c
    rw [hD] at IHd
    have IHb := ihb ((x, x ++ "_" ++ natStr c1) :: m) (c1 + 1)
    rw [hB] at IHb
    simp only [rename, renameFresh, hD, hB, binders]
    obtain ⟨k1, k2⟩ := combine_bind IHb.2.1 IHb.2.2 IHb.1
    obtain ⟨k3, k4⟩ := combine_two IHd.2.1 IHd.2.2 k1 k2 IHd.1 (by omega)
    exact ⟨by omega, k3, k4⟩
  | ite cnd e0 e1 ihc ih0 ih1 =>
    intro m c
    rcases hC : rename cnd m c with ⟨cnd', c1⟩
    rcases h0 : rename e0 m c1 with ⟨e0', c2⟩
    rcases h1 : rename e1 m c2 with ⟨e1', c3⟩
    have IHc := ihc m c
    rw [hC] at IHc
    have IH0 := ih0 m c1
    rw [h0] at IH0
    have IH1 := ih1 m c2
    rw [h1] at IH1
    simp only [rename, hC, h0, h1, binders]
    obtain ⟨k1, k2⟩ := combine_two IHc.2.1 IHc.2.2 IH0.2.1 IH0.2.2 IHc.1 IH0.1
    obtain ⟨k3, k4⟩ := combine_two k1 k2 IH1.2.1 IH1.2.2 (le_trans IHc.1 IH0.1) IH1.1
    exact ⟨by omega, k3, k4⟩
  | fn x b ih =>
    intro m c
    rcases hB : rename b ((x, x ++ "_" ++ natStr c) :: m) (c + 1) with ⟨b', c2⟩
    have IH := ih ((x, x ++ "_" ++ natStr c) :: m) (c + 1)
    rw [hB] at IH
    simp only [rename, renameFresh, hB, binders]
    obtain ⟨k1, k2⟩ := combine_bind IH.2.1 IH.2.2 IH.1
    exact ⟨by omega, k1, k2⟩
  | app f a ihf iha =>
    intro m c
    rcases hL : rename f m c with ⟨f', c1⟩
    rcases hR : rename a m c1 with ⟨a', c2⟩
    have IHl := ihf m c
    rw [hL] at IHl
    have IHr := iha m c1
    rw [hR] at IHr
    simp only [rename, hL, hR, binders]
    obtain ⟨k1, k2⟩ := combine_two IHl.2.1 IHl.2.2 IHr.2.1 IHr.2.2 IHl.1 IHr.1
    exact ⟨le_trans IHl.1 IHr.1, k1, k2⟩

set_option maxHeartbeats 2000000 in
theorem rename_meets_spec (e : Expr) : ∀ (m : List (String × String)) (c : Nat),
    RenameSpec m e (rename e m c).1 := by
  induction e with
  | var x =>
    intro m c
    cases hm : mapGet m x <;> simp [rename, RenameSpec, hm]
  | num n =>
    intro m c
    simp [rename, RenameSpec]
  | bln b =>
    intro m c
    simp [rename, RenameSpec]
  | eql l r ihl ihr =>
    intro m c
    rcases hL : rename l m c with ⟨l', c1⟩
    rcases hR : rename r m c1 with ⟨r', c2⟩
    simp only [rename, hL, hR, RenameSpec]
    refine ⟨?_, ?_⟩
    · have := ihl m c
      rwa [hL] at this
    · have := ihr m c1
      rwa [hR] at this
  | and l r ihl ihr =>
    intro m c
    rcases hL : rename l m c with ⟨l', c1⟩
    rcases hR : rename r m c1 with ⟨r', c2⟩
    simp only [rename, hL, hR, RenameSpec]
    refine ⟨?_, ?_⟩
    · have := ihl m c
      rwa [hL] at this
    · have := ihr m c1
      rwa [hR] at this
  | or l r ihl ihr =>
    intro m c
    rcases hL : rename l m c with ⟨l', c1⟩
    rcases hR : rename r m c1 with ⟨r', c2⟩
    simp only [rename, hL, hR, RenameSpec]
    refine ⟨?_, ?_⟩
    · have := ihl m c
      rwa [hL] at this
    · have := ihr m c1
      rwa [hR] at this
  | add l r ihl ihr =>
    intro m c
    rcases hL : rename l m c with ⟨l', c1⟩
    rcases hR : rename r m c1 with ⟨r', c2⟩
    simp only [rename, hL, hR, RenameSpec]
    refine ⟨?_, ?_⟩
    · have := ihl m c
      rwa [hL] at this
    · have := ihr m c1
      rwa [hR] at this
  | sub l r ihl ihr =>
    intro m c
    rcases hL : rename l m c with ⟨l', c1⟩
    rcases hR : rename r m c1 with ⟨r', c2⟩
    simp only [rename, hL, hR, RenameSpec]
    refine ⟨?_, ?_⟩
    · have := ihl m c
      rwa [hL] at this
    · have := ihr m c1
      rwa [hR] at this
  | mul l r ihl ihr =>
    intro m c
    rcases hL : rename l m c with ⟨l', c1⟩
    rcases hR : rename r m c1 with ⟨r', c2⟩
    simp only [rename, hL, hR, RenameSpec]
    refine ⟨?_, ?_⟩
    · have := ihl m c
      rwa [hL] at this
    · have := ihr m c1
      rwa [hR] at this
  | div l r ihl ihr =>
    intro m c
    rcases hL : rename l m c with ⟨l', c1⟩
    rcases hR : rename r m c1 with ⟨r', c2⟩
    simp only [rename, hL, hR, RenameSpec]
    refine ⟨?_, ?_⟩
    · have := ihl m c
      rwa [hL] at this
    · have := ihr m c1
      rwa [hR] at this
  | leq l r ihl ihr =>
    intro m c
    rcases hL : rename l m c with ⟨l', c1⟩
    rcases hR : rename r m c1 with ⟨r', c2⟩
    simp only [rename, hL, hR, RenameSpec]
    refine ⟨?_, ?_⟩
    · have := ihl m c
      rwa [hL] at this
    · have := ihr m c1
      rwa [hR] at this
  | lth l r ihl ihr =>
    intro m c
    rcases hL : rename l m c with ⟨l', c1⟩
    rcases hR : rename r m c1 with ⟨r', c2⟩
    simp only [rename, hL, hR, RenameSpec]
    refine ⟨?_, ?_⟩
    · have := ihl m c
      rwa [hL] at this
    · have := ihr m c1
      rwa [hR] at this
  | neg a ih =>
    intro m c
    rcases hE : rename a m c with ⟨a', c1⟩
    simp only [rename, hE, RenameSpec]
    have := ih m c
    rwa [hE] at this
  | not a ih =>
    intro m c
    rcases hE : rename a m c with ⟨a', c1⟩
    simp only [rename, hE, RenameSpec]
    have := ih m c
    rwa [hE] at this
  | letE x d b ihd ihb =>
    intro m c
    rcases hD : rename d m c with ⟨d', c1⟩
    rcases hB : rename b ((x, x ++ "_" ++ natStr c1) :: m) (c1 + 1) with ⟨b', c3⟩
    simp only [rename, renameFresh, hD, hB, RenameSpec]
    refine ⟨?_, ?_⟩
    · have := ihd m c
      rwa [hD] at this
    · have := ihb ((x, x ++ "_" ++ natStr c1) :: m) (c1 + 1)
      rwa [hB] at this
  | ite cnd e0 e1 ihc ih0 ih1 =>
    intro m c
    rcases hC : rename cnd m c with ⟨cnd', c1⟩
    rcases h0 : rename e0 m c1 with ⟨e0', c2⟩
    rcases h1 : rename e1 m c2 with ⟨e1', c3⟩
    simp only [rename, hC, h0, h1, RenameSpec]
    refine ⟨?_, ?_, ?_⟩
    · have := ihc m c
      rwa [hC] at this
    · have := ih0 m c1
      rwa [h0] at this
    · have := ih1 m c2
      rwa [h1] at this
  | fn x b ih =>
    intro m c
    rcases hB : rename b ((x, x ++ "_" ++ natStr c) :: m) (c + 1) with ⟨b', c2⟩
    simp only [rename, renameFresh, hB, RenameSpec]
    have := ih ((x, x ++ "_" ++ natStr c) :: m) (c + 1)
    rwa [hB] at this
  | app f a ihf iha =>
    intro m c
    rcases hL : rename f m c with ⟨f', c1⟩
    rcases hR : rename a m c1 with ⟨a', c2⟩
    simp only [rename, hL, hR, RenameSpec]
    refine ⟨?_, ?_⟩
    · have := ihf m c
      rwa [hL] at this
    · have := iha m c1
      rwa [hR] at this

/-- C2: after running the renamer from the empty name map, no two
distinct binder occurrences (Let identifiers and Fn formals) carry the
same name; and the output satisfies RenameSpec for the empty map, which
says every use of an in-scope bound variable is rewritten to exactly the
renamed name recorded for its binder (so all uses in one scope agree with
the binder), while a variable with no binder in scope is left
unchanged. -/
theorem c2_renamer_hygiene (e : Expr) :
    (binders (rename e [] 0).1).Nodup ∧ RenameSpec [] e (rename e [] 0).1 :=
  ⟨(rename_binders_spec e [] 0).2.2, rename_meets_spec e [] 0⟩
